import Mathlib

/-!
Verification development for the CodeAnalytics static-analysis engine.

The definitions below are a shallow embedding, in Lean, of the Python
sources of the repository:
  src/analyzers/security_analyzer.py   (SecurityAnalyzer)
  src/analyzers/quality_analyzer.py    (QualityAnalyzer scoring/grading)
  src/analyzers/code_analyzer.py       (BasicAnalyzer / PythonAnalyzer)
  src/analyzers/performance_analyzer.py (PerformanceAnalyzer)

Modelling conventions:
  * Python strings are Lean `String` / `List Char`; `str.split("\n")`,
    `str.strip()`, `str.lower()` are embedded as explicit functions on
    `List Char` (ASCII semantics, which is all the analyzers rely on).
  * Python's `re` module is embedded by a small backtracking regular
    expression engine (`RE`, `matchF`); each regex literal of the source
    is transcribed into an `RE` value.  `re.IGNORECASE` is embedded by
    case-folding the scanned line (the transcribed patterns are written
    with lower-cased literals); `re.search` is `research` (match anywhere
    in the line), `re.match` is `rmatch0` (match at the start).
    The engine is fuelled; the fuel bound is generous enough for all the
    patterns of the source (no nested unbounded repetitions occur).
  * Python dicts with string keys are association lists
    `List (String × Nat)` so that key-set claims are expressible.
  * The Python `ast` module (external to the repository) is modelled by
    an inductive type `PyNode` of node kinds with children, exactly the
    kinds the analyzer code discriminates on.
-/

/-! ## Character and line utilities -/

/-- The ASCII whitespace characters recognised by Python's `str.strip()`
and by the regex class `\s`. -/
def pyWhitespace : List Char := [' ', '\t', '\n', '\x0b', '\x0c', '\r']

/-- Whether a character is Python whitespace. -/
def isPyWS (c : Char) : Bool := pyWhitespace.contains c

/-- ASCII lower-casing of one character: embedding of Python `str.lower()`
(and of the case-folding performed by `re.IGNORECASE`) on the ASCII
inputs the analyzers work with. -/
def lowerChar : Char → Char
  | 'A' => 'a' | 'B' => 'b' | 'C' => 'c' | 'D' => 'd' | 'E' => 'e'
  | 'F' => 'f' | 'G' => 'g' | 'H' => 'h' | 'I' => 'i' | 'J' => 'j'
  | 'K' => 'k' | 'L' => 'l' | 'M' => 'm' | 'N' => 'n' | 'O' => 'o'
  | 'P' => 'p' | 'Q' => 'q' | 'R' => 'r' | 'S' => 's' | 'T' => 't'
  | 'U' => 'u' | 'V' => 'v' | 'W' => 'w' | 'X' => 'x' | 'Y' => 'y'
  | 'Z' => 'z' | c => c

/-- Lower-casing of a character list. -/
def lowerList (s : List Char) : List Char := s.map lowerChar

/-- Lower-casing of a string: embedding of Python `str.lower()`. -/
def lowerStr (s : String) : String := ⟨lowerList s.data⟩

/-- Embedding of Python `str.strip()`: drop leading and trailing
whitespace. -/
def stripList (s : List Char) : List Char :=
  ((s.dropWhile isPyWS).reverse.dropWhile isPyWS).reverse

/-- Whether `s` starts with the character pattern `p` (embedding of
Python `str.startswith` for a single candidate). -/
def listStartsWith : List Char → List Char → Bool
  | _, [] => true
  | [], _ :: _ => false
  | c :: s, d :: p => c == d && listStartsWith s p

/-- Embedding of Python `str.split("\n")`: split a character list at
every newline, keeping empty segments (a trailing newline yields a
trailing empty segment, as the naive split does). -/
def splitLinesAux : List Char → List Char → List (List Char)
  | [], acc => [acc.reverse]
  | '\n' :: rest, acc => acc.reverse :: splitLinesAux rest []
  | c :: rest, acc => splitLinesAux rest (c :: acc)

/-- The line sequence of a document (`self.lines = code.split("\n")`). -/
def splitLines (s : List Char) : List (List Char) := splitLinesAux s []

/-- Pairs every list element with its 1-based position, starting at `n`
(embedding of Python `enumerate(lines, n)`). -/
def enumF : Nat → List α → List (Nat × α)
  | _, [] => []
  | n, a :: rest => (n, a) :: enumF (n + 1) rest

/-! ## Regular expression engine

A small backtracking matcher with continuation passing, covering exactly
the constructs used by the regex literals of the analyzed sources:
literal characters, `.`, character classes (possibly negated), `*`,
alternation, word boundary `\b` and negative lookahead `(?!...)`.
`+`, `?` and bounded repetition are desugared at transcription time. -/

inductive RE where
  | eps : RE
  | chr (c : Char) : RE
  | dot : RE
  | cls (neg : Bool) (cs : List Char) : RE
  | seq (a b : RE) : RE
  | alt (a b : RE) : RE
  | star (r : RE) : RE
  | wordB : RE
  | nla (r : RE) : RE
deriving DecidableEq, Repr

/-- Structural size of a regex, used to compute a fuel bound. -/
def reSize : RE → Nat
  | .eps => 1
  | .chr _ => 1
  | .dot => 1
  | .cls _ _ => 1
  | .seq a b => reSize a + reSize b + 1
  | .alt a b => reSize a + reSize b + 1
  | .star r => reSize r + 1
  | .wordB => 1
  | .nla r => reSize r + 1

/-- Word characters for `\b` (Python `\w` over ASCII). -/
def isWordChar (c : Char) : Bool := c.isAlpha || c.isDigit || c == '_'

/-- Class membership test (`[...]` and `[^...]`). -/
def clsTest (neg : Bool) (cs : List Char) (c : Char) : Bool :=
  if neg then !(cs.contains c) else cs.contains c

/-- Whether the head position of `s`, preceded by `prev`, is a word
boundary. -/
def atWordBoundary (prev : Option Char) (s : List Char) : Bool :=
  let before := match prev with | none => false | some c => isWordChar c
  let after := match s with | [] => false | c :: _ => isWordChar c
  before != after

/-- The matcher: `matchF fuel r prev s k` tries to match `r` against a
prefix of `s` (with `prev` the character just before `s`, for `\b`),
then calls the continuation `k` on the remainder.  Star iterations must
consume at least one character (empty iterations are absorbable, so the
matched language is unchanged); fuel is decremented on each step, and a
fuel of `(reSize r + 2) * (length s + 2)` is enough for every pattern of
the source (none nests unbounded repetition inside repetition). -/
def matchF : Nat → RE → Option Char → List Char → (Option Char → List Char → Bool) → Bool
  | 0, _, _, _, _ => false
  | fuel + 1, re, prev, s, k =>
    match re with
    | .eps => k prev s
    | .chr c =>
      match s with
      | [] => false
      | d :: rest => c == d && k (some d) rest
    | .dot =>
      match s with
      | [] => false
      | d :: rest => d != '\n' && k (some d) rest
    | .cls neg cs =>
      match s with
      | [] => false
      | d :: rest => clsTest neg cs d && k (some d) rest
    | .seq a b => matchF fuel a prev s (fun p2 s2 => matchF fuel b p2 s2 k)
    | .alt a b => matchF fuel a prev s k || matchF fuel b prev s k
    | .star r =>
      k prev s ||
        matchF fuel r prev s
          (fun p2 s2 => decide (s2.length < s.length) && matchF fuel (.star r) p2 s2 k)
    | .wordB => atWordBoundary prev s && k prev s
    | .nla r => !(matchF fuel r prev s (fun _ _ => true)) && k prev s

/-- Whether `r` matches starting exactly at the head of `s`. -/
def matchHere (r : RE) (prev : Option Char) (s : List Char) : Bool :=
  matchF ((reSize r + 2) * (s.length + 2)) r prev s (fun _ _ => true)

/-- Search helper: try to match at each successive position. -/
def searchFrom (r : RE) (prev : Option Char) : List Char → Bool
  | [] => matchHere r prev []
  | c :: rest => matchHere r prev (c :: rest) || searchFrom r (some c) rest

/-- Embedding of Python `re.search(r, s)` (match anywhere). -/
def research (r : RE) (s : List Char) : Bool := searchFrom r none s

/-- Embedding of Python `re.match(r, s)` (match anchored at the start). -/
def rmatch0 (r : RE) (s : List Char) : Bool := matchHere r none s

/-! ### Transcription combinators -/

/-- Sequence of regexes. -/
def rseq (rs : List RE) : RE := rs.foldr RE.seq .eps

/-- Literal string (each character matched exactly). -/
def rstr (s : String) : RE := rseq (s.data.map RE.chr)

/-- `r?` -/
def ropt (r : RE) : RE := .alt r .eps

/-- `r+` -/
def rplus (r : RE) : RE := .seq r (.star r)

/-- `\s*` -/
def wsStar : RE := .star (.cls false pyWhitespace)

/-- `\s+` -/
def wsPlus : RE := rplus (.cls false pyWhitespace)

/-- `.*` -/
def dotStar : RE := .star .dot

/-- `["\']` -/
def quoteCls : RE := .cls false ['"', '\x27']

/-- `[^"\']` -/
def notQuoteCls : RE := .cls true ['"', '\x27']

/-- `[^,]` -/
def notCommaCls : RE := .cls true [',']

/-- `[^)]` -/
def notCloseCls : RE := .cls true [')']

/-- `\d` -/
def digitCls : RE := .cls false ['0', '1', '2', '3', '4', '5', '6', '7', '8', '9']

/-- `\d{1,3}` -/
def digit13 : RE := rseq [digitCls, ropt digitCls, ropt digitCls]

example : research (rstr "abc") "xxabcy".data = true := by decide
example : research (rstr "abc") "xxaby".data = false := by decide
example : research (rseq [rstr "os", .chr '.', rstr "system", wsStar, .chr '(']) "os.system  (".data = true := by decide
example : rmatch0 (rseq [rstr "def", wsPlus]) "def f():".data = true := by decide
example : rmatch0 (rseq [rstr "def", wsPlus]) "adef f():".data = false := by decide
example : research (rseq [.wordB, digit13, .chr '.', digit13, .chr '.', digit13, .chr '.', digit13, .wordB]) "ip=10.0.0.1;".data = true := by decide
example : research (rseq [rstr "http:", .chr '/', .chr '/', .nla (rstr "localhost")]) "http://example.com".data = true := by decide
example : research (rseq [rstr "http:", .chr '/', .chr '/', .nla (rstr "localhost")]) "http://localhost/x".data = false := by decide

/-! ## SecurityAnalyzer (src/analyzers/security_analyzer.py)

Each regex literal of `SECURITY_PATTERNS` is transcribed into an `RE`
value.  Because `SecurityAnalyzer.analyze` tests every pattern with
`re.IGNORECASE`, the transcription writes every literal letter in lower
case and the scan below folds the line to lower case before matching
(no character class of these patterns contains a letter, so class
matching is unaffected by the fold). -/

/-- `SECURITY_PATTERNS["python"]` from the source, in dict insertion
order, as (category, rules) pairs with rules (pattern, message). -/
def pythonSecRules : List (String × List (RE × String)) :=
  [ ("sql_injection",
      [ (rseq [rstr "execute", wsStar, .chr '(', wsStar, quoteCls, dotStar, rstr "%s"],
          "Possible SQL injection using string formatting"),
        (rseq [rstr "execute", wsStar, .chr '(', wsStar, .chr 'f', quoteCls],
          "Possible SQL injection using f-string"),
        (rseq [rstr "execute", wsStar, .chr '(', wsStar, quoteCls, dotStar, .chr '+'],
          "Possible SQL injection using string concatenation"),
        (rseq [rstr "cursor", .chr '.', rstr "execute", wsStar, .chr '(', rplus notCommaCls, .chr '+'],
          "SQL query built with concatenation") ]),
    ("command_injection",
      [ (rseq [rstr "os", .chr '.', rstr "system", wsStar, .chr '('],
          "Use of os.system() - consider subprocess instead"),
        (rseq [rstr "subprocess", .chr '.', rstr "call", wsStar, .chr '(', rplus notCommaCls,
               rstr "shell", wsStar, .chr '=', wsStar, rstr "true"],
          "Shell=True with subprocess is dangerous"),
        (rseq [rstr "subprocess", .chr '.', rstr "popen", wsStar, .chr '(', rplus notCommaCls,
               rstr "shell", wsStar, .chr '=', wsStar, rstr "true"],
          "Shell=True with subprocess is dangerous"),
        (rseq [rstr "eval", wsStar, .chr '('],
          "Use of eval() - potential code injection"),
        (rseq [rstr "exec", wsStar, .chr '('],
          "Use of exec() - potential code injection") ]),
    ("hardcoded_secrets",
      [ (rseq [rstr "password", wsStar, .chr '=', wsStar, quoteCls, rplus notQuoteCls, quoteCls],
          "Possible hardcoded password"),
        (rseq [rstr "api_key", wsStar, .chr '=', wsStar, quoteCls, rplus notQuoteCls, quoteCls],
          "Possible hardcoded API key"),
        (rseq [rstr "secret", wsStar, .chr '=', wsStar, quoteCls, rplus notQuoteCls, quoteCls],
          "Possible hardcoded secret"),
        (rseq [rstr "token", wsStar, .chr '=', wsStar, quoteCls, rplus notQuoteCls, quoteCls],
          "Possible hardcoded token"),
        (rstr "aws_access_key", "Possible AWS credentials"),
        (rstr "private_key", "Possible private key") ]),
    ("unsafe_deserialization",
      [ (rseq [rstr "pickle", .chr '.', rstr "load", ropt (.chr 's'), wsStar, .chr '('],
          "Pickle deserialization - untrusted data is dangerous"),
        (rseq [rstr "yaml", .chr '.', rstr "load", wsStar, .chr '(', rplus notCommaCls, .chr ')'],
          "Use yaml.safe_load() instead of yaml.load()"),
        (rseq [rstr "marshal", .chr '.', rstr "load", ropt (.chr 's'), wsStar, .chr '('],
          "Marshal deserialization is unsafe") ]),
    ("path_traversal",
      [ (rseq [rstr "open", wsStar, .chr '(', .star notCloseCls, .chr '+', .star notCloseCls, .chr ')'],
          "File open with concatenation - possible path traversal") ]),
    ("weak_crypto",
      [ (rseq [rstr "md5", wsStar, .chr '('], "MD5 is cryptographically weak - use SHA-256+"),
        (rseq [rstr "sha1", wsStar, .chr '('], "SHA1 is cryptographically weak - use SHA-256+"),
        (rseq [rstr "des", wsStar, .chr '('], "DES encryption is weak - use AES") ]),
    ("insecure_random",
      [ (rseq [rstr "random", .chr '.', rstr "random", wsStar, .chr '('],
          "random.random() not cryptographically secure - use secrets module"),
        (rseq [rstr "random", .chr '.', rstr "randint", wsStar, .chr '('],
          "random.randint() not cryptographically secure - use secrets module") ]),
    ("debug_code",
      [ (rseq [rstr "print", wsStar, .chr '(', dotStar, rstr "password"],
          "Printing password information"),
        (rseq [rstr "debug", wsStar, .chr '=', wsStar, rstr "true"], "Debug mode enabled"),
        (rseq [.chr '.', rstr "set_trace", wsStar, .chr '('], "Debugger breakpoint in code") ]) ]

/-- `SECURITY_PATTERNS["javascript"]` from the source. -/
def jsSecRules : List (String × List (RE × String)) :=
  [ ("xss",
      [ (rseq [rstr "innerhtml", wsStar, .chr '='], "innerHTML assignment - possible XSS"),
        (rseq [rstr "document", .chr '.', rstr "write", wsStar, .chr '('],
          "document.write() - possible XSS"),
        (rseq [.chr '.', rstr "html", wsStar, .chr '(', rplus notCloseCls, .chr '+'],
          "jQuery .html() with concatenation - possible XSS") ]),
    ("eval",
      [ (rseq [rstr "eval", wsStar, .chr '('], "Use of eval() - potential code injection"),
        (rseq [rstr "new", wsPlus, rstr "function", wsStar, .chr '('],
          "new Function() is similar to eval"),
        (rseq [rstr "settimeout", wsStar, .chr '(', wsStar, quoteCls],
          "setTimeout with string - similar to eval"),
        (rseq [rstr "setinterval", wsStar, .chr '(', wsStar, quoteCls],
          "setInterval with string - similar to eval") ]),
    ("hardcoded_secrets",
      [ (rseq [rstr "apikey", wsStar, .cls false [':', '='], wsStar, quoteCls, rplus notQuoteCls, quoteCls],
          "Possible hardcoded API key"),
        (rseq [rstr "password", wsStar, .cls false [':', '='], wsStar, quoteCls, rplus notQuoteCls, quoteCls],
          "Possible hardcoded password"),
        (rseq [rstr "secret", wsStar, .cls false [':', '='], wsStar, quoteCls, rplus notQuoteCls, quoteCls],
          "Possible hardcoded secret") ]),
    ("prototype_pollution",
      [ (rstr "__proto__", "Prototype pollution risk"),
        (rseq [rstr "constructor", wsStar, .chr '['], "Possible prototype pollution") ]) ]

/-- `SECURITY_PATTERNS["general"]` from the source (the `(?i)` flags are
no-ops under the lower-cased embedding). -/
def generalSecRules : List (String × List (RE × String)) :=
  [ ("sensitive_data",
      [ (rstr "password", "Reference to password"),
        (rseq [rstr "api", ropt (.cls false ['_', '-']), rstr "key"], "Reference to API key"),
        (rseq [rstr "secret", ropt (.cls false ['_', '-']), rstr "key"], "Reference to secret key"),
        (rseq [rstr "auth", ropt (.cls false ['_', '-']), rstr "token"], "Reference to auth token"),
        (rseq [rstr "private", ropt (.cls false ['_', '-']), rstr "key"], "Reference to private key") ]),
    ("ip_addresses",
      [ (rseq [.wordB, digit13, .chr '.', digit13, .chr '.', digit13, .chr '.', digit13, .wordB],
          "Hardcoded IP address") ]),
    ("urls",
      [ (rseq [rstr "http", .chr ':', .chr '/', .chr '/', .nla (rstr "localhost")],
          "HTTP URL (not HTTPS)") ]) ]

/-- Embedding of `SecurityAnalyzer._determine_severity` (the `pattern`
argument is unused by the source, so it is omitted here). -/
def severityOf (category : String) : String :=
  let critical_categories := ["sql_injection", "command_injection", "unsafe_deserialization"]
  let high_categories := ["xss", "eval", "prototype_pollution", "hardcoded_secrets"]
  let medium_categories := ["weak_crypto", "path_traversal"]
  if critical_categories.contains category then "critical"
  else if high_categories.contains category then "high"
  else if medium_categories.contains category then "medium"
  else "low"

/-- The comment skip of the scan loop:
`line.strip().startswith(("#", "//", "/*", "*"))`. -/
def isCommentLine (line : List Char) : Bool :=
  let st := stripList line
  listStartsWith st ['#'] || listStartsWith st ['/', '/'] ||
    listStartsWith st ['/', '*'] || listStartsWith st ['*']

/-- One security finding (the `issue` dict built by `analyze`). -/
structure SecIssue where
  line : Nat
  category : String
  message : String
  severity : String
  code : String
deriving DecidableEq, Repr

/-- The body of the scan loop for one rule at one enumerated line: skip
comment lines, otherwise test the pattern (case-folded) and build the
issue dict. -/
def issueAt (cat : String) (rule : RE × String) (p : Nat × List Char) : Option SecIssue :=
  if isCommentLine p.2 then none
  else if research rule.1 (lowerList p.2) then
    some { line := p.1, category := cat, message := rule.2,
           severity := severityOf cat, code := ⟨(stripList p.2).take 80⟩ }
  else none

/-- The findings one category's rule list produces on the given lines,
enumerated from `n` (the source enumerates from 1; the generalisation
over `n` is used for append reasoning): for each rule in order, each
non-comment line matching the pattern (case-folded) yields an issue. -/
def issuesForFrom (n : Nat) (lines : List (List Char)) (cat : String)
    (rules : List (RE × String)) : List SecIssue :=
  rules.flatMap fun rule => (enumF n lines).filterMap (issueAt cat rule)

/-- The merged rule table `patterns_to_check`: the language-specific
rules (if the lower-cased tag is a known key) followed by the general
rules.  The source merges with `dict.update`; the key sets of the
language tables are disjoint from the general table, and for the tag
"general" updating the table with itself is the identity, so the merge
is this concatenation. -/
def patternsToCheck (lang : String) : List (String × List (RE × String)) :=
  (if lang == "python" then pythonSecRules
   else if lang == "javascript" then jsSecRules
   else []) ++ generalSecRules

/-- All findings of `analyze`, in the loop's order (category, then rule,
then line). -/
def allIssuesFrom (n : Nat) (lang : String) (lines : List (List Char)) : List SecIssue :=
  (patternsToCheck lang).flatMap fun c => issuesForFrom n lines c.1 c.2

/-- `results["severity_counts"][severity] += 1` on an association list. -/
def bumpCount (k : String) (m : List (String × Nat)) : List (String × Nat) :=
  m.map fun p => if p.1 == k then (p.1, p.2 + 1) else p

/-- The initial `severity_counts` dict literal of `analyze`. -/
def initialCounts : List (String × Nat) :=
  [("critical", 0), ("high", 0), ("medium", 0), ("low", 0)]

/-- The final `severity_counts`: one bump per issue, in scan order. -/
def countsOf (issues : List SecIssue) : List (String × Nat) :=
  issues.foldl (fun m i => bumpCount i.severity m) initialCounts

/-- `weights.get(severity, 1)` from `_calculate_risk_score`. -/
def weightOf (sev : String) : Nat :=
  if sev == "critical" then 25
  else if sev == "high" then 15
  else if sev == "medium" then 5
  else if sev == "low" then 2
  else 1

/-- Embedding of `SecurityAnalyzer._calculate_risk_score`: weighted sum
over the `severity_counts` items, capped with `min(score, 100)`. -/
def riskScoreOf (counts : List (String × Nat)) : Nat :=
  min (counts.foldl (fun score p => score + p.2 * weightOf p.1) 0) 100

/-- The result record of `SecurityAnalyzer.analyze`. -/
structure SecResult where
  issues : List SecIssue
  severity_counts : List (String × Nat)
  categories : List (String × Nat)
  total_issues : Nat
  risk_score : Nat
deriving DecidableEq, Repr

/-- Embedding of `SecurityAnalyzer.analyze` (the constructor lowers the
language tag; the scan enumerates `code.split("\n")` from 1). -/
def secAnalyze (code : String) (language : String) : SecResult :=
  let lang := lowerStr language
  let lines := splitLines code.data
  let issues := allIssuesFrom 1 lang lines
  { issues := issues
    severity_counts := countsOf issues
    categories :=
      (patternsToCheck lang).filterMap fun c =>
        let k := (issuesForFrom 1 lines c.1 c.2).length
        if k ≠ 0 then some (c.1, k) else none
    total_issues := issues.length
    risk_score := riskScoreOf (countsOf issues) }

/-- Python dict lookup on the association lists used above (total, with
a default of 0; `analyze` only ever reads keys it created). -/
def dictGet (m : List (String × Nat)) (k : String) : Nat :=
  match m.find? (fun p => p.1 == k) with
  | some p => p.2
  | none => 0

/-! ## QualityAnalyzer scoring (src/analyzers/quality_analyzer.py)

`_calculate_score` reads a handful of values out of the analysis result
dict; those values are gathered here into records.  The Python floats
(`comment_ratio`, `average_line_length`, `lines_per_function`,
`coverage`) are embedded as rationals: the scoring logic only compares
them against the constants 0.1, 80, 30, 0.5, 0.8. -/

/-- The metric values `_calculate_score` reads from
`results["metrics"]`.  The field `comment_density` embeds the metric
the source calls the comment ratio (comment lines over code lines). -/
structure QMetrics where
  comment_density : ℚ
  average_line_length : ℚ
  lines_per_function : ℚ
deriving DecidableEq, Repr

/-- The values `_calculate_score` reads from
`results["documentation"]`. -/
structure QDoc where
  has_module_doc : Bool
  coverage : ℚ
deriving DecidableEq, Repr

/-- Embedding of `QualityAnalyzer._calculate_score`: the deductions are
applied in source order to a running score started at 100, and the
result is clamped with `max(0, min(100, score))`.  `naming_issues` is
the length of `results["naming_issues"]`; `code_smells` is the list of
the severity tags of `results["code_smells"]`. -/
def calculateScore (metrics : QMetrics) (naming_issues : Nat) (doc : QDoc)
    (code_smells : List String) : Int :=
  let score : Int := 100
  let score := if metrics.comment_density < 1/10 then score - 10 else score
  let score := if metrics.average_line_length > 80 then score - 5 else score
  let score := if metrics.lines_per_function > 30 then score - 10 else score
  let score := score - min ((naming_issues : Int) * 2) 15
  let score := if doc.has_module_doc then score else score - 5
  let score :=
    if doc.coverage < 1/2 then score - 10
    else if doc.coverage < 4/5 then score - 5
    else score
  let score := code_smells.foldl
    (fun acc sev =>
      if sev == "high" then acc - 8
      else if sev == "medium" then acc - 5
      else acc - 2)
    score
  max 0 (min 100 score)

/-- Embedding of `QualityAnalyzer._get_grade`. -/
def getGrade (score : Int) : String :=
  if score ≥ 90 then "A"
  else if score ≥ 80 then "B"
  else if score ≥ 70 then "C"
  else if score ≥ 60 then "D"
  else "F"

/-- The scoring formula exactly as the specification words it: start at
100, subtract each deduction (10 for low comment ratio, 5 for long
average lines, 10 for long functions, 2 per naming issue capped at 15,
5 for a missing module docstring, 10 or 5 for low documentation
coverage, and 8/5/2 per high/medium/low code smell, uncapped), then
clamp to [0, 100]. -/
def specQualityScore (metrics : QMetrics) (naming_issues : Nat) (doc : QDoc)
    (code_smells : List String) : Int :=
  let deductions : Int :=
    (if metrics.comment_density < 1/10 then 10 else 0) +
    (if metrics.average_line_length > 80 then 5 else 0) +
    (if metrics.lines_per_function > 30 then 10 else 0) +
    min (2 * (naming_issues : Int)) 15 +
    (if doc.has_module_doc then 0 else 5) +
    (if doc.coverage < 1/2 then 10 else if doc.coverage < 4/5 then 5 else 0) +
    (8 * (code_smells.countP (· == "high") : Int) +
     5 * (code_smells.countP (· == "medium") : Int) +
     2 * (code_smells.countP (· == "low") : Int))
  max 0 (min 100 (100 - deductions))

/-! ## Python AST model and PythonAnalyzer (src/analyzers/code_analyzer.py)

The Python `ast` module is external to the repository; it is modelled by
an inductive tree whose node kinds are exactly the ones the analyzer
discriminates on (`If`, `While`, `For`, `ExceptHandler`, `BoolOp`,
`comprehension`, `FunctionDef`, `AsyncFunctionDef`, `ClassDef`,
`Import`, `ImportFrom`, `Assign`, `AnnAssign`, `Module`), every other
node kind being `other`.  `ast.walk` visits every node of the subtree;
walk order is irrelevant to the claims, so a preorder walk is used.
Positional metadata (line numbers, aliases, annotations) of the records
is elided — no claim depends on it. -/

inductive PyNode where
  | ifStmt (children : List PyNode)
  | whileStmt (children : List PyNode)
  | forStmt (children : List PyNode)
  | exceptHandler (children : List PyNode)
  | boolOp (values : List PyNode)
  | comprehensionClause (children : List PyNode)
  | functionDef (name : String) (children : List PyNode)
  | asyncFunctionDef (name : String) (children : List PyNode)
  | classDef (name : String) (children : List PyNode)
  | importStmt (names : List String)
  | importFrom (module : String) (level : Nat) (names : List String)
  | assign (targets : List String)
  | annAssign (target : String)
  | module (body : List PyNode)
  | other (children : List PyNode)

mutual

/-- The contribution of each walked node in
`PythonAnalyzer._calculate_function_complexity`: 1 for
`If`/`While`/`For`/`ExceptHandler`, `len(values) - 1` for `BoolOp`,
1 for a comprehension clause, 0 otherwise — summed over the whole
subtree (the walk includes nested functions). -/
def subtreeWeight : PyNode → Int
  | .ifStmt cs => 1 + listWeight cs
  | .whileStmt cs => 1 + listWeight cs
  | .forStmt cs => 1 + listWeight cs
  | .exceptHandler cs => 1 + listWeight cs
  | .boolOp vs => ((vs.length : Int) - 1) + listWeight vs
  | .comprehensionClause cs => 1 + listWeight cs
  | .functionDef _ cs => listWeight cs
  | .asyncFunctionDef _ cs => listWeight cs
  | .classDef _ cs => listWeight cs
  | .importStmt _ => 0
  | .importFrom _ _ _ => 0
  | .assign _ => 0
  | .annAssign _ => 0
  | .module cs => listWeight cs
  | .other cs => listWeight cs

def listWeight : List PyNode → Int
  | [] => 0
  | n :: rest => subtreeWeight n + listWeight rest

end

/-- Embedding of `PythonAnalyzer._calculate_function_complexity`:
`complexity = 1` plus the walked contributions (the walk starts at the
function node itself, whose own contribution is 0). -/
def complexity (n : PyNode) : Int := 1 + subtreeWeight n

mutual

/-- Well-formedness of a modelled tree as the Python parser guarantees
it: every boolean operation has at least two operands. -/
def wfNode : PyNode → Bool
  | .ifStmt cs => wfList cs
  | .whileStmt cs => wfList cs
  | .forStmt cs => wfList cs
  | .exceptHandler cs => wfList cs
  | .boolOp vs => decide (2 ≤ vs.length) && wfList vs
  | .comprehensionClause cs => wfList cs
  | .functionDef _ cs => wfList cs
  | .asyncFunctionDef _ cs => wfList cs
  | .classDef _ cs => wfList cs
  | .importStmt _ => true
  | .importFrom _ _ _ => true
  | .assign _ => true
  | .annAssign _ => true
  | .module cs => wfList cs
  | .other cs => wfList cs

def wfList : List PyNode → Bool
  | [] => true
  | n :: rest => wfNode n && wfList rest

end

mutual

/-- The specification's additive complexity rule, stated as counts over
the subtree: 1, plus one per conditional branch / loop / exception
handler, plus (N - 1) per boolean expression with N operands, plus one
per comprehension clause — this is the branch/loop/handler count. -/
def branchCount : PyNode → Nat
  | .ifStmt cs => 1 + branchCountList cs
  | .whileStmt cs => 1 + branchCountList cs
  | .forStmt cs => 1 + branchCountList cs
  | .exceptHandler cs => 1 + branchCountList cs
  | .boolOp vs => branchCountList vs
  | .comprehensionClause cs => branchCountList cs
  | .functionDef _ cs => branchCountList cs
  | .asyncFunctionDef _ cs => branchCountList cs
  | .classDef _ cs => branchCountList cs
  | .importStmt _ => 0
  | .importFrom _ _ _ => 0
  | .assign _ => 0
  | .annAssign _ => 0
  | .module cs => branchCountList cs
  | .other cs => branchCountList cs

def branchCountList : List PyNode → Nat
  | [] => 0
  | n :: rest => branchCount n + branchCountList rest

end

mutual

/-- Sum of (operand count - 1) over the boolean expressions of the
subtree. -/
def boolOpExcess : PyNode → Int
  | .ifStmt cs => boolOpExcessList cs
  | .whileStmt cs => boolOpExcessList cs
  | .forStmt cs => boolOpExcessList cs
  | .exceptHandler cs => boolOpExcessList cs
  | .boolOp vs => ((vs.length : Int) - 1) + boolOpExcessList vs
  | .comprehensionClause cs => boolOpExcessList cs
  | .functionDef _ cs => boolOpExcessList cs
  | .asyncFunctionDef _ cs => boolOpExcessList cs
  | .classDef _ cs => boolOpExcessList cs
  | .importStmt _ => 0
  | .importFrom _ _ _ => 0
  | .assign _ => 0
  | .annAssign _ => 0
  | .module cs => boolOpExcessList cs
  | .other cs => boolOpExcessList cs

def boolOpExcessList : List PyNode → Int
  | [] => 0
  | n :: rest => boolOpExcess n + boolOpExcessList rest

end

mutual

/-- Number of comprehension clauses in the subtree. -/
def comprehensionCount : PyNode → Nat
  | .ifStmt cs => comprehensionCountList cs
  | .whileStmt cs => comprehensionCountList cs
  | .forStmt cs => comprehensionCountList cs
  | .exceptHandler cs => comprehensionCountList cs
  | .boolOp vs => comprehensionCountList vs
  | .comprehensionClause cs => 1 + comprehensionCountList cs
  | .functionDef _ cs => comprehensionCountList cs
  | .asyncFunctionDef _ cs => comprehensionCountList cs
  | .classDef _ cs => comprehensionCountList cs
  | .importStmt _ => 0
  | .importFrom _ _ _ => 0
  | .assign _ => 0
  | .annAssign _ => 0
  | .module cs => comprehensionCountList cs
  | .other cs => comprehensionCountList cs

def comprehensionCountList : List PyNode → Nat
  | [] => 0
  | n :: rest => comprehensionCount n + comprehensionCountList rest

end

/-- The complexity value the specification's additive rule assigns. -/
def specComplexity (n : PyNode) : Int :=
  1 + (branchCount n : Int) + boolOpExcess n + (comprehensionCount n : Int)

mutual

/-- Preorder walk of a subtree (models `ast.walk`; the claims only use
which nodes occur, never the visit order). -/
def pyWalk : PyNode → List PyNode
  | .ifStmt cs => .ifStmt cs :: pyWalkList cs
  | .whileStmt cs => .whileStmt cs :: pyWalkList cs
  | .forStmt cs => .forStmt cs :: pyWalkList cs
  | .exceptHandler cs => .exceptHandler cs :: pyWalkList cs
  | .boolOp vs => .boolOp vs :: pyWalkList vs
  | .comprehensionClause cs => .comprehensionClause cs :: pyWalkList cs
  | .functionDef nm cs => .functionDef nm cs :: pyWalkList cs
  | .asyncFunctionDef nm cs => .asyncFunctionDef nm cs :: pyWalkList cs
  | .classDef nm cs => .classDef nm cs :: pyWalkList cs
  | .importStmt ns => [.importStmt ns]
  | .importFrom m l ns => [.importFrom m l ns]
  | .assign ts => [.assign ts]
  | .annAssign t => [.annAssign t]
  | .module cs => .module cs :: pyWalkList cs
  | .other cs => .other cs :: pyWalkList cs

def pyWalkList : List PyNode → List PyNode
  | [] => []
  | n :: rest => pyWalk n ++ pyWalkList rest

end

/-- One extracted function record (`get_functions` entry; the fields no
claim touches are elided). -/
structure FuncRecord where
  name : String
  is_async : Bool
  complexity : Int
deriving DecidableEq, Repr


/-- The extraction walk of `PythonAnalyzer.get_functions` on a parsed
tree: every `FunctionDef`/`AsyncFunctionDef` anywhere in the subtree
yields a record whose complexity is `_calculate_function_complexity` of
that node. -/
def pyGetFunctions (t : PyNode) : List FuncRecord :=
  (pyWalk t).filterMap fun n =>
    match n with
    | .functionDef nm cs => some ⟨nm, false, complexity (.functionDef nm cs)⟩
    | .asyncFunctionDef nm cs => some ⟨nm, true, complexity (.asyncFunctionDef nm cs)⟩
    | _ => none

/-- One extracted class record (`get_classes` entry; methods are the
direct function children, as (name, is_async)). -/
structure ClassRecord where
  name : String
  methods : List (String × Bool)
deriving DecidableEq, Repr


/-- The extraction walk of `PythonAnalyzer.get_classes`. -/
def pyGetClasses (t : PyNode) : List ClassRecord :=
  (pyWalk t).filterMap fun n =>
    match n with
    | .classDef nm cs =>
      some ⟨nm, cs.filterMap fun c =>
        match c with
        | .functionDef m _ => some (m, false)
        | .asyncFunctionDef m _ => some (m, true)
        | _ => none⟩
    | _ => none

/-- `PythonAnalyzer.get_variables`: only module-level `Assign` targets
that are plain names, and module-level `AnnAssign` names. -/
def pyGetVariables (t : PyNode) : List String :=
  match t with
  | .module body =>
    body.flatMap fun n =>
      match n with
      | .assign ts => ts
      | .annAssign tg => [tg]
      | _ => []
  | _ => []

/-- The `standard_libs` allow-list of `PythonAnalyzer.get_imports`. -/
def standardLibs : List String :=
  ["os", "sys", "json", "re", "math", "datetime", "time", "random",
   "collections", "itertools", "functools", "typing", "pathlib",
   "subprocess", "threading", "multiprocessing", "asyncio", "socket",
   "http", "urllib", "email", "html", "xml", "logging", "unittest",
   "argparse", "configparser", "csv", "sqlite3", "pickle", "copy", "io",
   "tempfile", "shutil", "glob", "hashlib", "hmac", "secrets", "base64",
   "binascii", "struct", "codecs", "string", "textwrap", "difflib",
   "pprint", "enum", "abc", "contextlib", "dataclasses", "inspect",
   "traceback", "warnings", "weakref", "types", "operator"]

/-- `alias.name.split(".")[0]` / `node.module.split(".")[0]`. -/
def rootModule (name : String) : String :=
  ⟨name.data.takeWhile (fun c => c ≠ '.')⟩

/-- The category dict returned by `get_imports` (lists of module
names; alias/line metadata elided). -/
structure ImportsResult where
  standard : List String
  third_party : List String
  local_mods : List String
deriving DecidableEq, Repr

/-- The classification walk of `PythonAnalyzer.get_imports` on a parsed
tree: plain imports are standard or third-party by the allow-list;
from-imports with a positive relative level are local. -/
def pyGetImports (t : PyNode) : ImportsResult :=
  let entries : List (String × String) :=
    (pyWalk t).flatMap fun n =>
      match n with
      | .importStmt names =>
        names.map fun nm =>
          (if standardLibs.contains (rootModule nm) then "standard" else "third_party", nm)
      | .importFrom m level names =>
        names.map fun _ =>
          (if level > 0 then "local"
           else if standardLibs.contains (rootModule m) then "standard"
           else "third_party", m)
      | _ => []
  { standard := (entries.filter (fun e => e.1 == "standard")).map (·.2)
    third_party := (entries.filter (fun e => e.1 == "third_party")).map (·.2)
    local_mods := (entries.filter (fun e => e.1 == "local")).map (·.2) }

/-- The caught `SyntaxError` of `_parse_ast` (fields the source reads:
msg, lineno, offset, text). -/
structure PySynErr where
  msg : String
  lineno : Nat
  offset : Option Nat
  text : Option String
deriving DecidableEq, Repr

/-- The analyzer state after `__init__`/`_parse_ast`: `ast.parse` either
returns a tree or raises a `SyntaxError`, which the source catches,
leaving `ast_tree = None` and storing the error (the source field is
called `syntax_error`). -/
structure PyAnalyzer where
  ast_tree : Option PyNode
  parse_error : Option PySynErr

/-- Embedding of `PythonAnalyzer._parse_ast` over the outcome of the
external parser. -/
def pyAnalyzerOfParse : Except PySynErr PyNode → PyAnalyzer
  | .ok t => { ast_tree := some t, parse_error := none }
  | .error e => { ast_tree := none, parse_error := some e }

/-- The structured record `get_syntax_errors` returns on parse failure. -/
structure SynErrRecord where
  message : String
  line : Nat
  offset : Option Nat
  text : Option String
deriving DecidableEq, Repr

/-- Embedding of `PythonAnalyzer.get_syntax_errors`: a structured record
when the tree is absent and an error was stored, `None` otherwise. -/
def getSynErrors (a : PyAnalyzer) : Option SynErrRecord :=
  match a.ast_tree, a.parse_error with
  | none, some e => some ⟨e.msg, e.lineno, e.offset, e.text⟩
  | _, _ => none

/-- `PythonAnalyzer.get_functions` with its empty-default guard. -/
def getFunctions (a : PyAnalyzer) : List FuncRecord :=
  match a.ast_tree with
  | none => []
  | some t => pyGetFunctions t

/-- `PythonAnalyzer.get_classes` with its empty-default guard. -/
def getClasses (a : PyAnalyzer) : List ClassRecord :=
  match a.ast_tree with
  | none => []
  | some t => pyGetClasses t

/-- `PythonAnalyzer.get_variables` with its empty-default guard. -/
def getVariables (a : PyAnalyzer) : List String :=
  match a.ast_tree with
  | none => []
  | some t => pyGetVariables t

/-- `PythonAnalyzer.get_imports` with its empty-default guard (the
source initialises the three category lists before the guard, so the
failure value is the empty category mapping). -/
def getImports (a : PyAnalyzer) : ImportsResult :=
  match a.ast_tree with
  | none => ⟨[], [], []⟩
  | some t => pyGetImports t

/-! ## PerformanceAnalyzer long-function detector
(src/analyzers/performance_analyzer.py, `_check_general_performance`,
second loop) -/

/-- The function-opener test of the loop:
`re.match(r"^(def|function|async\s+function)\s+", line.strip())`. -/
def funcOpenerRE : RE :=
  .seq (.alt (rstr "def") (.alt (rstr "function") (rseq [rstr "async", wsPlus, rstr "function"]))) wsPlus

/-- Whether a line opens a function definition. -/
def isFuncOpener (line : List Char) : Bool := rmatch0 funcOpenerRE (stripList line)

/-- One performance issue record (the dict appended by the source). -/
structure PerfIssue where
  line : Nat
  message : String
  severity : String
  code : String
deriving DecidableEq, Repr

/-- The issue the long-function loop appends when a span is reported. -/
def longFuncIssue (function_start function_lines : Nat) : PerfIssue :=
  { line := function_start
    message := "Long function (" ++ Nat.repr function_lines ++ " lines) - consider breaking it up"
    severity := if function_lines < 100 then "medium" else "high"
    code := "Function definition" }

/-- The long-function loop of `_check_general_performance`, with its
running state (`i`, `in_function`, `function_start`, `function_lines`):
on each opener line, the previous span is reported when it exceeds 50
lines; non-opener lines inside a function bump the counter. -/
def longFuncLoop : Nat → Bool → Nat → Nat → List (List Char) → List PerfIssue
  | _, _, _, _, [] => []
  | i, in_function, function_start, function_lines, l :: rest =>
    if isFuncOpener l then
      (if in_function && function_lines > 50 then [longFuncIssue function_start function_lines] else []) ++
        longFuncLoop (i + 1) true i 0 rest
    else if in_function then
      longFuncLoop (i + 1) in_function function_start (function_lines + 1) rest
    else
      longFuncLoop (i + 1) in_function function_start function_lines rest

/-- The long-function issues of a document (loop started on line 1 with
`in_function = False`, counters 0). -/
def longFunctions (code : String) : List PerfIssue :=
  longFuncLoop 1 false 0 0 (splitLines code.data)

/-- The 1-based positions of the function-opener lines, from `n`. -/
def openerPositionsFrom (n : Nat) (lines : List (List Char)) : List Nat :=
  (enumF n lines).filterMap fun p => if isFuncOpener p.2 then some p.1 else none

/-- Opener positions of a document. -/
def openerPositions (code : String) : List Nat :=
  openerPositionsFrom 1 (splitLines code.data)

/-- The issue record as the specification words it: reported at the
first opener's line, severity "medium" when the span is below 100 lines
and "high" at or above 100. -/
def specLongFuncIssue (opener span : Nat) : PerfIssue :=
  { line := opener
    message := "Long function (" ++ Nat.repr span ++ " lines) - consider breaking it up"
    severity := if span < 100 then "medium" else "high"
    code := "Function definition" }

/-- The long-function reports as the specification words them: for each
pair of consecutive opener positions, the span is the number of lines
strictly between them, and spans exceeding 50 are reported. -/
def specLongFuncs : List Nat → List PerfIssue
  | a :: b :: rest =>
    (if b - a - 1 > 50 then [specLongFuncIssue a (b - a - 1)] else []) ++ specLongFuncs (b :: rest)
  | _ => []

/-! ## BasicAnalyzer blank-line runs
(src/analyzers/code_analyzer.py, `find_patterns`, consecutive blank
lines loop; the other pattern lists of `find_patterns` are independent
of this one and are not needed by any claim) -/

/-- Python blank-line test of the loop: `not line.strip()`. -/
def isBlankLine (l : List Char) : Bool := stripList l == []

/-- One `consecutive_blank_lines` record. -/
structure BlankRun where
  start_line : Nat
  end_line : Nat
  count : Nat
deriving DecidableEq, Repr

/-- The blank-run loop of `find_patterns`, with its running state
(`i`, `blank_count`, `blank_start`): a run is recorded only when a
non-blank line is reached with more than 2 blanks accumulated; the loop
ends without flushing a pending run. -/
def blankRunsLoop : Nat → Nat → Nat → List (List Char) → List BlankRun
  | _, _, _, [] => []
  | i, blank_count, blank_start, l :: rest =>
    if isBlankLine l then
      blankRunsLoop (i + 1) (blank_count + 1) (if blank_count == 0 then i else blank_start) rest
    else
      (if blank_count > 2 then [⟨blank_start, i - 1, blank_count⟩] else []) ++
        blankRunsLoop (i + 1) 0 blank_start rest

/-- The `consecutive_blank_lines` list of `find_patterns`. -/
def findBlankRuns (code : String) : List BlankRun :=
  blankRunsLoop 1 0 0 (splitLines code.data)

/-- Length of `dropWhile` never exceeds the length of the list. -/
theorem dropWhile_length_le (p : α → Bool) : ∀ l : List α, (l.dropWhile p).length ≤ l.length
  | [] => Nat.le_refl _
  | a :: l => by
    simp only [List.dropWhile]
    split
    · exact Nat.le_trans (dropWhile_length_le p l) (Nat.le_succ _)
    · exact Nat.le_refl _

/-- The blank runs as amended: each maximal run of blank lines that is
followed by a non-blank line and counts more than 2 blanks is reported
with its start line, end line and count; a run that reaches the end of
the input is not reported. -/
def specBlankRuns (i : Nat) : List (List Char) → List BlankRun
  | [] => []
  | l :: rest =>
    if isBlankLine l then
      let b := 1 + (rest.takeWhile isBlankLine).length
      match hafter : rest.dropWhile isBlankLine with
      | [] => []
      | x :: xs =>
        (if b > 2 then [⟨i, i + b - 1, b⟩] else []) ++ specBlankRuns (i + b) (x :: xs)
    else
      specBlankRuns (i + 1) rest
termination_by lines => lines.length
decreasing_by
  · have h := dropWhile_length_le isBlankLine rest
    rw [hafter] at h
    simp only [List.length_cons] at h ⊢
    omega
  · simp

example : findBlankRuns "x\n\n\n\n" = [] := by decide
example : findBlankRuns "x\n\n\n\n\ny" = [⟨2, 5, 4⟩] := by decide
example : longFunctions "def f():\n1\n2\ndef g():" = [] := by decide
example : isFuncOpener "  def foo():".data = true := by decide
example : isFuncOpener "undef foo():".data = false := by decide
example : isFuncOpener "async function foo()".data = true := by decide

/-! ## Severity count lemmas -/

/-- Number of findings of a given severity tier. -/
def sevCount (s : String) (issues : List SecIssue) : Nat :=
  issues.countP (fun i => i.severity == s)

/-- `_determine_severity` only ever returns one of the four tiers. -/
theorem severityOf_mem (cat : String) :
    severityOf cat ∈ ["critical", "high", "medium", "low"] := by
  unfold severityOf
  dsimp only
  split_ifs <;> simp

/-- Every finding of the scan carries a severity produced by
`_determine_severity`. -/
theorem mem_issuesForFrom_severity {n : Nat} {lines : List (List Char)} {cat : String}
    {rules : List (RE × String)} {i : SecIssue} (h : i ∈ issuesForFrom n lines cat rules) :
    i.severity = severityOf cat := by
  unfold issuesForFrom at h
  simp only [List.mem_flatMap, List.mem_filterMap] at h
  obtain ⟨rule, _, p, _, hp⟩ := h
  unfold issueAt at hp
  by_cases hc : isCommentLine p.2
  · simp [hc] at hp
  · by_cases hr : research rule.1 (lowerList p.2)
    · simp [hc, hr] at hp
      subst hp
      rfl
    · simp [hc, hr] at hp

/-- Severities in the full scan result are among the four tiers. -/
theorem mem_allIssuesFrom_severity {n : Nat} {lang : String} {lines : List (List Char)}
    {i : SecIssue} (h : i ∈ allIssuesFrom n lang lines) :
    i.severity ∈ ["critical", "high", "medium", "low"] := by
  unfold allIssuesFrom at h
  simp only [List.mem_flatMap] at h
  obtain ⟨c, _, hi⟩ := h
  rw [mem_issuesForFrom_severity hi]
  exact severityOf_mem c.1

theorem bumpCount_critical (a b c d : Nat) :
    bumpCount "critical" [("critical", a), ("high", b), ("medium", c), ("low", d)] =
      [("critical", a + 1), ("high", b), ("medium", c), ("low", d)] := rfl

theorem bumpCount_high (a b c d : Nat) :
    bumpCount "high" [("critical", a), ("high", b), ("medium", c), ("low", d)] =
      [("critical", a), ("high", b + 1), ("medium", c), ("low", d)] := rfl

theorem bumpCount_medium (a b c d : Nat) :
    bumpCount "medium" [("critical", a), ("high", b), ("medium", c), ("low", d)] =
      [("critical", a), ("high", b), ("medium", c + 1), ("low", d)] := rfl

theorem bumpCount_low (a b c d : Nat) :
    bumpCount "low" [("critical", a), ("high", b), ("medium", c), ("low", d)] =
      [("critical", a), ("high", b), ("medium", c), ("low", d + 1)] := rfl

/-- The bump fold computes, per tier, the initial value plus the number
of findings of that tier. -/
theorem foldl_bump_eq (issues : List SecIssue)
    (h : ∀ i ∈ issues, i.severity ∈ ["critical", "high", "medium", "low"]) :
    ∀ a b c d : Nat,
      issues.foldl (fun m i => bumpCount i.severity m)
          [("critical", a), ("high", b), ("medium", c), ("low", d)] =
        [("critical", a + sevCount "critical" issues),
         ("high", b + sevCount "high" issues),
         ("medium", c + sevCount "medium" issues),
         ("low", d + sevCount "low" issues)] := by
  induction issues with
  | nil => intro a b c d; simp [sevCount]
  | cons i rest ih =>
    intro a b c d
    have hmem := h i (by simp)
    have hrest : ∀ j ∈ rest, j.severity ∈ ["critical", "high", "medium", "low"] :=
      fun j hj => h j (by simp [hj])
    simp only [List.mem_cons, List.mem_singleton] at hmem
    simp only [List.foldl_cons]
    rcases hmem with hs | hs | hs | hs | hfalse
    · rw [hs, bumpCount_critical, ih hrest]
      simp [sevCount, List.countP_cons, hs]
      omega
    · rw [hs, bumpCount_high, ih hrest]
      simp [sevCount, List.countP_cons, hs]
      omega
    · rw [hs, bumpCount_medium, ih hrest]
      simp [sevCount, List.countP_cons, hs]
      omega
    · rw [hs, bumpCount_low, ih hrest]
      simp [sevCount, List.countP_cons, hs]
      omega
    · simp at hfalse

/-- The final `severity_counts` of `analyze` is the four-key mapping
whose value at each tier is the number of findings of that tier. -/
theorem severity_counts_eq (code language : String) :
    (secAnalyze code language).severity_counts =
      [("critical", sevCount "critical" (secAnalyze code language).issues),
       ("high", sevCount "high" (secAnalyze code language).issues),
       ("medium", sevCount "medium" (secAnalyze code language).issues),
       ("low", sevCount "low" (secAnalyze code language).issues)] := by
  show countsOf (allIssuesFrom 1 (lowerStr language) (splitLines code.data)) = _
  unfold countsOf initialCounts
  rw [foldl_bump_eq _ (fun i hi => mem_allIssuesFrom_severity hi)]
  simp [secAnalyze]

/-- `_calculate_risk_score` on the four-key mapping is the capped
weighted sum. -/
theorem riskScoreOf_eq (a b c d : Nat) :
    riskScoreOf [("critical", a), ("high", b), ("medium", c), ("low", d)] =
      min (0 + a * 25 + b * 15 + c * 5 + d * 2) 100 := rfl

theorem dictGet_counts (a b c d : Nat) :
    dictGet [("critical", a), ("high", b), ("medium", c), ("low", d)] "critical" = a ∧
    dictGet [("critical", a), ("high", b), ("medium", c), ("low", d)] "high" = b ∧
    dictGet [("critical", a), ("high", b), ("medium", c), ("low", d)] "medium" = c ∧
    dictGet [("critical", a), ("high", b), ("medium", c), ("low", d)] "low" = d :=
  ⟨rfl, rfl, rfl, rfl⟩

/-- C1 (counterexample): on a concrete input, the `severity_counts`
mapping of `SecurityAnalyzer.analyze` has no "info" key, so its key set
is not the five severities the claim asserts. -/
theorem claim1_counterexample :
    "info" ∉ ((secAnalyze "" "python").severity_counts.map Prod.fst) := by decide

/-- C1 (amended): for every input text and language, the
`severity_counts` mapping of `SecurityAnalyzer.analyze` has exactly the
four keys critical, high, medium, low — in that order — and the value
at each key is the number of findings of that tier (hence 0 when no
finding of that tier exists). -/
theorem claim1_key_set :
    ∀ code language : String,
      ((secAnalyze code language).severity_counts.map Prod.fst =
        ["critical", "high", "medium", "low"]) ∧
      (secAnalyze code language).severity_counts =
        [("critical", sevCount "critical" (secAnalyze code language).issues),
         ("high", sevCount "high" (secAnalyze code language).issues),
         ("medium", sevCount "medium" (secAnalyze code language).issues),
         ("low", sevCount "low" (secAnalyze code language).issues)] := by
  intro code language
  have h := severity_counts_eq code language
  refine ⟨?_, h⟩
  rw [h]
  rfl

/-- C3: for every input text and language, `risk_score` equals
`min(100, 25*critical + 15*high + 5*medium + 2*low)` over the
`severity_counts` values, and is at most 100 (it is a `Nat`, hence also
at least 0). -/
theorem claim3_risk_formula :
    ∀ code language : String,
      (secAnalyze code language).risk_score =
        min 100 (25 * dictGet (secAnalyze code language).severity_counts "critical" +
          15 * dictGet (secAnalyze code language).severity_counts "high" +
          5 * dictGet (secAnalyze code language).severity_counts "medium" +
          2 * dictGet (secAnalyze code language).severity_counts "low") ∧
      (secAnalyze code language).risk_score ≤ 100 := by
  intro code language
  have h := severity_counts_eq code language
  have hrisk : (secAnalyze code language).risk_score =
      riskScoreOf (secAnalyze code language).severity_counts := rfl
  rw [hrisk, h, riskScoreOf_eq]
  obtain ⟨h1, h2, h3, h4⟩ := dictGet_counts (sevCount "critical" (secAnalyze code language).issues)
    (sevCount "high" (secAnalyze code language).issues)
    (sevCount "medium" (secAnalyze code language).issues)
    (sevCount "low" (secAnalyze code language).issues)
  rw [h1, h2, h3, h4]
  omega

/-- C6: when the external parse fails, `PythonAnalyzer` absorbs the
failure: `get_syntax_errors` returns the structured record built from
the error's message, line, column offset and text snippet, and every
structural query returns its empty-default shape. -/
theorem claim6_parse_failure :
    ∀ e : PySynErr,
      getSynErrors (pyAnalyzerOfParse (.error e)) =
        some ⟨e.msg, e.lineno, e.offset, e.text⟩ ∧
      getImports (pyAnalyzerOfParse (.error e)) = ⟨[], [], []⟩ ∧
      getFunctions (pyAnalyzerOfParse (.error e)) = [] ∧
      getClasses (pyAnalyzerOfParse (.error e)) = [] ∧
      getVariables (pyAnalyzerOfParse (.error e)) = [] :=
  fun _ => ⟨rfl, rfl, rfl, rfl, rfl⟩

/-- C5: `_determine_severity` is the fixed total mapping the
specification gives — the three injection/deserialization categories
are critical, the four xss/eval/pollution/secrets categories are high,
weak crypto and path traversal are medium, and every other category
string is low — and on a python document containing
`os.system("rm -rf " + user_input)` the analyzer reports a
command_injection finding with severity critical. -/
theorem claim5_severity_mapping :
    (severityOf "sql_injection" = "critical" ∧
     severityOf "command_injection" = "critical" ∧
     severityOf "unsafe_deserialization" = "critical") ∧
    (severityOf "xss" = "high" ∧ severityOf "eval" = "high" ∧
     severityOf "prototype_pollution" = "high" ∧
     severityOf "hardcoded_secrets" = "high") ∧
    (severityOf "weak_crypto" = "medium" ∧ severityOf "path_traversal" = "medium") ∧
    (∀ cat : String,
      cat ∉ ["sql_injection", "command_injection", "unsafe_deserialization",
             "xss", "eval", "prototype_pollution", "hardcoded_secrets",
             "weak_crypto", "path_traversal"] →
      severityOf cat = "low") ∧
    (∃ i ∈ (secAnalyze "os.system(\"rm -rf \" + user_input)" "python").issues,
      i.category = "command_injection" ∧ i.severity = "critical") := by
  refine ⟨⟨rfl, rfl, rfl⟩, ⟨rfl, rfl, rfl, rfl⟩, ⟨rfl, rfl⟩, ?_, by decide⟩
  intro cat h
  simp only [List.mem_cons, not_or] at h
  unfold severityOf
  dsimp only
  split_ifs with hc hh hm
  · simp at hc
    simp_all
  · simp at hh
    simp_all
  · simp at hm
    simp_all
  · rfl

/-- Witness for the hypothesis-bearing part of the C5 theorem: the
category debug_code is outside the nine listed categories and maps to
low. -/
theorem claim5_severity_mapping_witness :
    ("debug_code" ∉ ["sql_injection", "command_injection", "unsafe_deserialization",
       "xss", "eval", "prototype_pollution", "hardcoded_secrets",
       "weak_crypto", "path_traversal"]) ∧
    severityOf "debug_code" = "low" :=
  ⟨by decide, claim5_severity_mapping.2.2.2.1 "debug_code" (by decide)⟩

/-! ## QualityAnalyzer score theorems -/

/-- The code-smell deduction fold subtracts 8 per high, 5 per medium and
2 per low smell when every smell severity is one of the three tiers the
detector produces. -/
theorem smell_foldl_eq (smells : List String)
    (h : ∀ s ∈ smells, s ∈ ["high", "medium", "low"]) :
    ∀ acc : Int,
      smells.foldl
          (fun acc sev =>
            if sev == "high" then acc - 8
            else if sev == "medium" then acc - 5
            else acc - 2)
          acc =
        acc - (8 * (smells.countP (· == "high") : Int) +
          5 * (smells.countP (· == "medium") : Int) +
          2 * (smells.countP (· == "low") : Int)) := by
  induction smells with
  | nil => intro acc; simp
  | cons s rest ih =>
    intro acc
    have hrest : ∀ t ∈ rest, t ∈ ["high", "medium", "low"] :=
      fun t ht => h t (by simp [ht])
    have hs := h s (by simp)
    simp only [List.mem_cons, List.not_mem_nil, or_false] at hs
    rcases hs with hs | hs | hs <;>
      · subst hs
        rw [List.foldl_cons, ih hrest]
        simp [List.countP_cons]
        push_cast
        omega

set_option maxHeartbeats 1000000 in
/-- The sequential deduction chain of `_calculate_score` equals the
specification's summed-deduction formula. -/
theorem calculateScore_eq_spec (metrics : QMetrics) (naming_issues : Nat) (doc : QDoc)
    (code_smells : List String) (h : ∀ s ∈ code_smells, s ∈ ["high", "medium", "low"]) :
    calculateScore metrics naming_issues doc code_smells =
      specQualityScore metrics naming_issues doc code_smells := by
  have hf := smell_foldl_eq code_smells h
  unfold calculateScore specQualityScore
  dsimp only
  rw [hf]
  split_ifs <;> omega

/-- The clamp of `_calculate_score` keeps every score in [0, 100]. -/
theorem calculateScore_bounds (metrics : QMetrics) (naming_issues : Nat) (doc : QDoc)
    (code_smells : List String) :
    0 ≤ calculateScore metrics naming_issues doc code_smells ∧
    calculateScore metrics naming_issues doc code_smells ≤ 100 := by
  unfold calculateScore
  dsimp only
  exact ⟨le_max_left _ _, max_le (by norm_num) (min_le_left _ _)⟩

/-- C2: `_calculate_score` computes exactly the deduction formula of the
specification (given that the detector only produces high/medium/low
smells), its value is clamped to [0, 100], and `_get_grade` realises
exactly the stated grade bands and boundary values. -/
theorem claim2_quality_score :
    (∀ (metrics : QMetrics) (naming_issues : Nat) (doc : QDoc) (code_smells : List String),
      (∀ s ∈ code_smells, s ∈ ["high", "medium", "low"]) →
      calculateScore metrics naming_issues doc code_smells =
        specQualityScore metrics naming_issues doc code_smells ∧
      0 ≤ calculateScore metrics naming_issues doc code_smells ∧
      calculateScore metrics naming_issues doc code_smells ≤ 100) ∧
    (∀ score : Int,
      (getGrade score = "A" ↔ 90 ≤ score) ∧
      (getGrade score = "B" ↔ 80 ≤ score ∧ score < 90) ∧
      (getGrade score = "C" ↔ 70 ≤ score ∧ score < 80) ∧
      (getGrade score = "D" ↔ 60 ≤ score ∧ score < 70) ∧
      (getGrade score = "F" ↔ score < 60)) ∧
    (getGrade 90 = "A" ∧ getGrade 89 = "B" ∧ getGrade 70 = "C" ∧
     getGrade 69 = "D" ∧ getGrade 59 = "F") := by
  refine ⟨?_, ?_, by decide⟩
  · intro metrics naming_issues doc code_smells h
    exact ⟨calculateScore_eq_spec metrics naming_issues doc code_smells h,
      (calculateScore_bounds metrics naming_issues doc code_smells).1,
      (calculateScore_bounds metrics naming_issues doc code_smells).2⟩
  · intro score
    unfold getGrade
    split_ifs <;> refine ⟨?_, ?_, ?_, ?_, ?_⟩ <;> constructor <;> intro hx <;>
      first
        | rfl
        | omega
        | exact absurd hx (by decide)
        | (exfalso; omega)

/-- Witness for the hypothesis-bearing part of the C2 theorem, at a
concrete metric record and smell list. -/
theorem claim2_quality_score_witness :
    (∀ s ∈ ["high", "low"], s ∈ ["high", "medium", "low"]) ∧
    calculateScore ⟨0, 100, 40⟩ 3 ⟨false, 0⟩ ["high", "low"] =
      specQualityScore ⟨0, 100, 40⟩ 3 ⟨false, 0⟩ ["high", "low"] :=
  ⟨by decide, (claim2_quality_score.1 ⟨0, 100, 40⟩ 3 ⟨false, 0⟩ ["high", "low"] (by decide)).1⟩

/-! ## Complexity theorems (C4) -/

mutual

/-- The walked weight is the branch count plus the boolean-operand
excess plus the comprehension count. -/
theorem subtreeWeight_eq : ∀ n : PyNode,
    subtreeWeight n = (branchCount n : Int) + boolOpExcess n + (comprehensionCount n : Int)
  | .ifStmt cs => by
    simp only [subtreeWeight, branchCount, boolOpExcess, comprehensionCount,
      listWeight_eq cs]
    try push_cast
    try ring
  | .whileStmt cs => by
    simp only [subtreeWeight, branchCount, boolOpExcess, comprehensionCount,
      listWeight_eq cs]
    try push_cast
    try ring
  | .forStmt cs => by
    simp only [subtreeWeight, branchCount, boolOpExcess, comprehensionCount,
      listWeight_eq cs]
    try push_cast
    try ring
  | .exceptHandler cs => by
    simp only [subtreeWeight, branchCount, boolOpExcess, comprehensionCount,
      listWeight_eq cs]
    try push_cast
    try ring
  | .boolOp vs => by
    simp only [subtreeWeight, branchCount, boolOpExcess, comprehensionCount,
      listWeight_eq vs]
    try push_cast
    try ring
  | .comprehensionClause cs => by
    simp only [subtreeWeight, branchCount, boolOpExcess, comprehensionCount,
      listWeight_eq cs]
    try push_cast
    try ring
  | .functionDef _ cs => by
    simp only [subtreeWeight, branchCount, boolOpExcess, comprehensionCount,
      listWeight_eq cs]
    try push_cast
    try ring
  | .asyncFunctionDef _ cs => by
    simp only [subtreeWeight, branchCount, boolOpExcess, comprehensionCount,
      listWeight_eq cs]
    try push_cast
    try ring
  | .classDef _ cs => by
    simp only [subtreeWeight, branchCount, boolOpExcess, comprehensionCount,
      listWeight_eq cs]
    try push_cast
    try ring
  | .importStmt _ => by
    simp [subtreeWeight, branchCount, boolOpExcess, comprehensionCount]
  | .importFrom _ _ _ => by
    simp [subtreeWeight, branchCount, boolOpExcess, comprehensionCount]
  | .assign _ => by
    simp [subtreeWeight, branchCount, boolOpExcess, comprehensionCount]
  | .annAssign _ => by
    simp [subtreeWeight, branchCount, boolOpExcess, comprehensionCount]
  | .module cs => by
    simp only [subtreeWeight, branchCount, boolOpExcess, comprehensionCount,
      listWeight_eq cs]
    try push_cast
    try ring
  | .other cs => by
    simp only [subtreeWeight, branchCount, boolOpExcess, comprehensionCount,
      listWeight_eq cs]
    try push_cast
    try ring

/-- List version of `subtreeWeight_eq`. -/
theorem listWeight_eq : ∀ l : List PyNode,
    listWeight l = (branchCountList l : Int) + boolOpExcessList l + (comprehensionCountList l : Int)
  | [] => by
    simp [listWeight, branchCountList, boolOpExcessList, comprehensionCountList]
  | n :: rest => by
    simp only [listWeight, branchCountList, boolOpExcessList, comprehensionCountList,
      subtreeWeight_eq n, listWeight_eq rest]
    try push_cast
    try ring

end

mutual

/-- On well-formed trees the walked weight is non-negative. -/
theorem wf_weight_nonneg : ∀ n : PyNode, wfNode n = true → 0 ≤ subtreeWeight n
  | .ifStmt cs, h => by
    simp only [wfNode] at h
    have hl := wfList_weight_nonneg cs h
    simp only [subtreeWeight]
    omega
  | .whileStmt cs, h => by
    simp only [wfNode] at h
    have hl := wfList_weight_nonneg cs h
    simp only [subtreeWeight]
    omega
  | .forStmt cs, h => by
    simp only [wfNode] at h
    have hl := wfList_weight_nonneg cs h
    simp only [subtreeWeight]
    omega
  | .exceptHandler cs, h => by
    simp only [wfNode] at h
    have hl := wfList_weight_nonneg cs h
    simp only [subtreeWeight]
    omega
  | .boolOp vs, h => by
    simp only [wfNode, Bool.and_eq_true, decide_eq_true_eq] at h
    have hl := wfList_weight_nonneg vs h.2
    have h2 := h.1
    simp only [subtreeWeight]
    push_cast
    omega
  | .comprehensionClause cs, h => by
    simp only [wfNode] at h
    have hl := wfList_weight_nonneg cs h
    simp only [subtreeWeight]
    omega
  | .functionDef _ cs, h => by
    simp only [wfNode] at h
    have hl := wfList_weight_nonneg cs h
    simp only [subtreeWeight]
    omega
  | .asyncFunctionDef _ cs, h => by
    simp only [wfNode] at h
    have hl := wfList_weight_nonneg cs h
    simp only [subtreeWeight]
    omega
  | .classDef _ cs, h => by
    simp only [wfNode] at h
    have hl := wfList_weight_nonneg cs h
    simp only [subtreeWeight]
    omega
  | .importStmt _, _ => by
    simp [subtreeWeight]
  | .importFrom _ _ _, _ => by
    simp [subtreeWeight]
  | .assign _, _ => by
    simp [subtreeWeight]
  | .annAssign _, _ => by
    simp [subtreeWeight]
  | .module cs, h => by
    simp only [wfNode] at h
    have hl := wfList_weight_nonneg cs h
    simp only [subtreeWeight]
    omega
  | .other cs, h => by
    simp only [wfNode] at h
    have hl := wfList_weight_nonneg cs h
    simp only [subtreeWeight]
    omega

/-- List version of `wf_weight_nonneg`. -/
theorem wfList_weight_nonneg : ∀ l : List PyNode, wfList l = true → 0 ≤ listWeight l
  | [], _ => by simp [listWeight]
  | n :: rest, h => by
    simp only [wfList, Bool.and_eq_true] at h
    have h1 := wf_weight_nonneg n h.1
    have h2 := wfList_weight_nonneg rest h.2
    simp only [listWeight]
    omega

end

mutual

/-- Every node the walk visits in a well-formed tree is well-formed. -/
theorem walk_wf : ∀ t : PyNode, wfNode t = true → ∀ n ∈ pyWalk t, wfNode n = true
  | .ifStmt cs, h, n, hn => by
    simp only [pyWalk, List.mem_cons] at hn
    rcases hn with rfl | hn
    · exact h
    · have h2 : wfList cs = true := by simpa [wfNode] using h
      exact walkList_wf cs h2 n hn
  | .whileStmt cs, h, n, hn => by
    simp only [pyWalk, List.mem_cons] at hn
    rcases hn with rfl | hn
    · exact h
    · have h2 : wfList cs = true := by simpa [wfNode] using h
      exact walkList_wf cs h2 n hn
  | .forStmt cs, h, n, hn => by
    simp only [pyWalk, List.mem_cons] at hn
    rcases hn with rfl | hn
    · exact h
    · have h2 : wfList cs = true := by simpa [wfNode] using h
      exact walkList_wf cs h2 n hn
  | .exceptHandler cs, h, n, hn => by
    simp only [pyWalk, List.mem_cons] at hn
    rcases hn with rfl | hn
    · exact h
    · have h2 : wfList cs = true := by simpa [wfNode] using h
      exact walkList_wf cs h2 n hn
  | .boolOp vs, h, n, hn => by
    simp only [pyWalk, List.mem_cons] at hn
    rcases hn with rfl | hn
    · exact h
    · have h2 : wfList vs = true := by
        simp only [wfNode, Bool.and_eq_true] at h
        exact h.2
      exact walkList_wf vs h2 n hn
  | .comprehensionClause cs, h, n, hn => by
    simp only [pyWalk, List.mem_cons] at hn
    rcases hn with rfl | hn
    · exact h
    · have h2 : wfList cs = true := by simpa [wfNode] using h
      exact walkList_wf cs h2 n hn
  | .functionDef nm cs, h, n, hn => by
    simp only [pyWalk, List.mem_cons] at hn
    rcases hn with rfl | hn
    · exact h
    · have h2 : wfList cs = true := by simpa [wfNode] using h
      exact walkList_wf cs h2 n hn
  | .asyncFunctionDef nm cs, h, n, hn => by
    simp only [pyWalk, List.mem_cons] at hn
    rcases hn with rfl | hn
    · exact h
    · have h2 : wfList cs = true := by simpa [wfNode] using h
      exact walkList_wf cs h2 n hn
  | .classDef nm cs, h, n, hn => by
    simp only [pyWalk, List.mem_cons] at hn
    rcases hn with rfl | hn
    · exact h
    · have h2 : wfList cs = true := by simpa [wfNode] using h
      exact walkList_wf cs h2 n hn
  | .importStmt _, h, n, hn => by
    simp only [pyWalk, List.mem_singleton] at hn
    subst hn
    exact h
  | .importFrom _ _ _, h, n, hn => by
    simp only [pyWalk, List.mem_singleton] at hn
    subst hn
    exact h
  | .assign _, h, n, hn => by
    simp only [pyWalk, List.mem_singleton] at hn
    subst hn
    exact h
  | .annAssign _, h, n, hn => by
    simp only [pyWalk, List.mem_singleton] at hn
    subst hn
    exact h
  | .module cs, h, n, hn => by
    simp only [pyWalk, List.mem_cons] at hn
    rcases hn with rfl | hn
    · exact h
    · have h2 : wfList cs = true := by simpa [wfNode] using h
      exact walkList_wf cs h2 n hn
  | .other cs, h, n, hn => by
    simp only [pyWalk, List.mem_cons] at hn
    rcases hn with rfl | hn
    · exact h
    · have h2 : wfList cs = true := by simpa [wfNode] using h
      exact walkList_wf cs h2 n hn

/-- List version of `walk_wf`. -/
theorem walkList_wf : ∀ l : List PyNode, wfList l = true → ∀ n ∈ pyWalkList l, wfNode n = true
  | [], _, n, hn => by simp [pyWalkList] at hn
  | m :: rest, h, n, hn => by
    simp only [pyWalkList, List.mem_append] at hn
    simp only [wfList, Bool.and_eq_true] at h
    rcases hn with hn | hn
    · exact walk_wf m h.1 n hn
    · exact walkList_wf rest h.2 n hn

end

/-- The concrete scenario tree: a function whose body is 4 sequential
if statements (each with a plain test and body) and no other branch
constructs. -/
def fourIfFunction : PyNode :=
  .functionDef "handler"
    [.ifStmt [.other [], .other []], .ifStmt [.other [], .other []],
     .ifStmt [.other [], .other []], .ifStmt [.other [], .other []]]

/-- C4: the reported complexity is exactly 1 plus one per
if/while/for/exception handler in the whole subtree, plus (N - 1) per
boolean expression with N operands, plus one per comprehension clause;
on well-formed trees every extracted function has complexity at least
1; and a function whose body is 4 sequential if statements has
complexity exactly 5. -/
theorem claim4_complexity :
    (∀ n : PyNode, complexity n = specComplexity n) ∧
    (∀ t : PyNode, wfNode t = true → ∀ f ∈ pyGetFunctions t, 1 ≤ f.complexity) ∧
    complexity fourIfFunction = 5 := by
  refine ⟨?_, ?_, by decide⟩
  · intro n
    unfold complexity specComplexity
    rw [subtreeWeight_eq n]
    ring
  · intro t ht f hf
    unfold pyGetFunctions at hf
    simp only [List.mem_filterMap] at hf
    obtain ⟨n, hn, hmatch⟩ := hf
    have hwf := walk_wf t ht n hn
    cases n with
    | functionDef nm cs =>
      simp only [Option.some.injEq] at hmatch
      subst hmatch
      have hw := wf_weight_nonneg (.functionDef nm cs) hwf
      show 1 ≤ complexity (.functionDef nm cs)
      unfold complexity
      omega
    | asyncFunctionDef nm cs =>
      simp only [Option.some.injEq] at hmatch
      subst hmatch
      have hw := wf_weight_nonneg (.asyncFunctionDef nm cs) hwf
      show 1 ≤ complexity (.asyncFunctionDef nm cs)
      unfold complexity
      omega
    | ifStmt cs => simp at hmatch
    | whileStmt cs => simp at hmatch
    | forStmt cs => simp at hmatch
    | exceptHandler cs => simp at hmatch
    | boolOp vs => simp at hmatch
    | comprehensionClause cs => simp at hmatch
    | classDef nm cs => simp at hmatch
    | importStmt ns => simp at hmatch
    | importFrom m l ns => simp at hmatch
    | assign ts => simp at hmatch
    | annAssign tg => simp at hmatch
    | module cs => simp at hmatch
    | other cs => simp at hmatch

/-- Witness for the hypothesis-bearing part of the C4 theorem: the
scenario tree is well-formed, and its one extracted function has
complexity at least 1. -/
theorem claim4_complexity_witness :
    (wfNode fourIfFunction = true) ∧
    (∀ f ∈ pyGetFunctions fourIfFunction, 1 ≤ f.complexity) :=
  ⟨by decide, claim4_complexity.2.1 fourIfFunction (by decide)⟩

/-! ## Long-function detector theorems (C9) -/

theorem specLongFuncIssue_eq_longFuncIssue : specLongFuncIssue = longFuncIssue := rfl

theorem specLongFuncs_nil : specLongFuncs [] = [] := rfl

theorem specLongFuncs_single (a : Nat) : specLongFuncs [a] = [] := rfl

theorem specLongFuncs_cons2 (a b : Nat) (rest : List Nat) :
    specLongFuncs (a :: b :: rest) =
      (if b - a - 1 > 50 then [specLongFuncIssue a (b - a - 1)] else []) ++
        specLongFuncs (b :: rest) := rfl

theorem openerPositionsFrom_nil (n : Nat) : openerPositionsFrom n [] = [] := rfl

theorem openerPositionsFrom_cons (n : Nat) (l : List Char) (rest : List (List Char)) :
    openerPositionsFrom n (l :: rest) =
      (if isFuncOpener l then [n] else []) ++ openerPositionsFrom (n + 1) rest := by
  unfold openerPositionsFrom
  simp only [enumF, List.filterMap_cons]
  split_ifs with h <;> simp [h]

/-- Inside a function (previous opener at line `a < i`, counter
`i - a - 1`), the loop emits exactly the specification's reports for
the opener pairs starting at `a`. -/
theorem longFuncLoop_inside :
    ∀ (lines : List (List Char)) (i a : Nat), a < i →
      longFuncLoop i true a (i - a - 1) lines =
        specLongFuncs (a :: openerPositionsFrom i lines) := by
  intro lines
  induction lines with
  | nil =>
    intro i a _
    simp [longFuncLoop, openerPositionsFrom_nil, specLongFuncs_single]
  | cons l rest ih =>
    intro i a ha
    rw [openerPositionsFrom_cons]
    by_cases ho : isFuncOpener l
    · simp only [ho, if_true, List.singleton_append]
      show longFuncLoop i true a (i - a - 1) (l :: rest) =
        specLongFuncs (a :: i :: openerPositionsFrom (i + 1) rest)
      unfold longFuncLoop
      rw [if_pos ho]
      have h0 : (0 : Nat) = i + 1 - i - 1 := by omega
      rw [show longFuncLoop (i + 1) true i 0 rest =
            longFuncLoop (i + 1) true i (i + 1 - i - 1) rest by rw [← h0],
          ih (i + 1) i (by omega)]
      rw [specLongFuncs_cons2, specLongFuncIssue_eq_longFuncIssue]
      simp
    · simp only [ho, if_false, List.nil_append]
      show longFuncLoop i true a (i - a - 1) (l :: rest) =
        specLongFuncs (a :: openerPositionsFrom (i + 1) rest)
      unfold longFuncLoop
      rw [if_neg ho, if_pos rfl]
      have harith : i - a - 1 + 1 = i + 1 - a - 1 := by omega
      rw [harith, ih (i + 1) a (by omega)]

/-- Before any opener has been seen, the loop emits exactly the
specification's reports for the remaining opener positions. -/
theorem longFuncLoop_outside :
    ∀ (lines : List (List Char)) (i fs fl : Nat),
      longFuncLoop i false fs fl lines = specLongFuncs (openerPositionsFrom i lines) := by
  intro lines
  induction lines with
  | nil => intro i fs fl; simp [longFuncLoop, openerPositionsFrom_nil, specLongFuncs_nil]
  | cons l rest ih =>
    intro i fs fl
    rw [openerPositionsFrom_cons]
    by_cases ho : isFuncOpener l
    · simp only [ho, if_true, List.singleton_append]
      unfold longFuncLoop
      rw [if_pos ho]
      have h0 : (0 : Nat) = i + 1 - i - 1 := by omega
      rw [show longFuncLoop (i + 1) true i 0 rest =
            longFuncLoop (i + 1) true i (i + 1 - i - 1) rest by rw [← h0],
          longFuncLoop_inside rest (i + 1) i (by omega)]
      simp
    · simp only [ho, if_false, List.nil_append]
      unfold longFuncLoop
      rw [if_neg ho, if_neg (by simp)]
      exact ih (i + 1) fs fl

/-- C9: the long-function detector reports exactly the spans between
consecutive function-definition openers that exceed 50 lines, each at
the first opener's line, and the reported severity is "medium" for a
span below 100 lines and "high" at or above 100. -/
theorem claim9_long_functions :
    (∀ code : String, longFunctions code = specLongFuncs (openerPositions code)) ∧
    (∀ opener span : Nat,
      (specLongFuncIssue opener span).severity =
        if span < 100 then "medium" else "high") := by
  constructor
  · intro code
    unfold longFunctions openerPositions
    exact longFuncLoop_outside (splitLines code.data) 1 0 0
  · intro opener span
    rfl

/-! ## Blank-run theorems (C8) -/

/-- Every element of `takeWhile p` satisfies `p`. -/
theorem takeWhile_all (p : α → Bool) : ∀ (l : List α) (x : α), x ∈ l.takeWhile p → p x = true := by
  intro l
  induction l with
  | nil => intro x hx; simp [List.takeWhile] at hx
  | cons a l ih =>
    intro x hx
    simp only [List.takeWhile] at hx
    by_cases ha : p a
    · rw [ha] at hx
      simp only [List.mem_cons] at hx
      rcases hx with rfl | hx
      · exact ha
      · exact ih x hx
    · simp [Bool.eq_false_iff.mpr ha] at hx

/-- The head of `dropWhile p` does not satisfy `p`. -/
theorem dropWhile_head_false (p : α → Bool) :
    ∀ (l : List α) (x : α) (xs : List α), l.dropWhile p = x :: xs → p x = false := by
  intro l
  induction l with
  | nil => intro x xs h; simp [List.dropWhile] at h
  | cons a l ih =>
    intro x xs h
    simp only [List.dropWhile] at h
    by_cases ha : p a
    · rw [ha] at h
      exact ih x xs h
    · rw [Bool.eq_false_iff.mpr ha] at h
      cases h
      exact Bool.eq_false_iff.mpr ha

/-- `specBlankRuns` at the empty line list. -/
theorem specBlankRuns_nil (i : Nat) : specBlankRuns i [] = [] := by
  rw [specBlankRuns.eq_def]

/-- `specBlankRuns` steps over a non-blank line. -/
theorem specBlankRuns_cons_nonblank (i : Nat) (l : List Char) (rest : List (List Char))
    (h : isBlankLine l = false) :
    specBlankRuns i (l :: rest) = specBlankRuns (i + 1) rest := by
  conv_lhs => rw [specBlankRuns.eq_def]
  simp [h]

/-- `specBlankRuns` on a blank line whose run reaches the end of the
input reports nothing. -/
theorem specBlankRuns_blank_end (i : Nat) (l : List Char) (rest : List (List Char))
    (h : isBlankLine l = true) (hd : rest.dropWhile isBlankLine = []) :
    specBlankRuns i (l :: rest) = [] := by
  conv_lhs => rw [specBlankRuns.eq_def]
  dsimp only
  rw [if_pos h]
  split
  · rfl
  · next x xs heq => rw [hd] at heq; cases heq

/-- `specBlankRuns` on a blank line whose run is followed by a
non-blank line. -/
theorem specBlankRuns_blank_mid (i : Nat) (l : List Char) (rest : List (List Char))
    (x : List Char) (xs : List (List Char))
    (h : isBlankLine l = true) (hd : rest.dropWhile isBlankLine = x :: xs) :
    specBlankRuns i (l :: rest) =
      (if 1 + (rest.takeWhile isBlankLine).length > 2 then
        [⟨i, i + (1 + (rest.takeWhile isBlankLine).length) - 1,
          1 + (rest.takeWhile isBlankLine).length⟩]
       else []) ++
        specBlankRuns (i + (1 + (rest.takeWhile isBlankLine).length)) (x :: xs) := by
  conv_lhs => rw [specBlankRuns.eq_def]
  dsimp only
  rw [if_pos h]
  split
  · next heq => rw [hd] at heq; cases heq
  · next y ys heq =>
    rw [hd] at heq
    cases heq
    rfl

theorem blankRunsLoop_nil (i bc bs : Nat) : blankRunsLoop i bc bs [] = [] := rfl

theorem blankRunsLoop_cons (i bc bs : Nat) (l : List Char) (rest : List (List Char)) :
    blankRunsLoop i bc bs (l :: rest) =
      if isBlankLine l then
        blankRunsLoop (i + 1) (bc + 1) (if bc == 0 then i else bs) rest
      else
        (if bc > 2 then [⟨bs, i - 1, bc⟩] else []) ++ blankRunsLoop (i + 1) 0 bs rest := rfl

/-- While the blank counter is positive, consuming a block of blank
lines advances the position and counter by its length and keeps the
recorded start. -/
theorem blankRunsLoop_blanks :
    ∀ (bl : List (List Char)), (∀ l ∈ bl, isBlankLine l = true) →
      ∀ (rest : List (List Char)) (i bc bs : Nat), bc ≠ 0 →
        blankRunsLoop i bc bs (bl ++ rest) =
          blankRunsLoop (i + bl.length) (bc + bl.length) bs rest := by
  intro bl
  induction bl with
  | nil => intro _ rest i bc bs _; simp
  | cons b bl ih =>
    intro hbl rest i bc bs hbc
    have hb : isBlankLine b = true := hbl b (by simp)
    have hbl2 : ∀ l ∈ bl, isBlankLine l = true := fun l hl => hbl l (by simp [hl])
    have hbeq : (bc == 0) = false := by simp [hbc]
    rw [List.cons_append, blankRunsLoop_cons, if_pos hb, hbeq]
    simp only [Bool.false_eq_true, if_false]
    rw [ih hbl2 rest (i + 1) (bc + 1) bs (by omega), List.length_cons,
        show i + (bl.length + 1) = i + 1 + bl.length from by omega,
        show bc + (bl.length + 1) = bc + 1 + bl.length from by omega]

/-- The blank-run loop, started with a zero counter, computes exactly
the amended specification. -/
theorem blankRunsLoop_eq_spec :
    ∀ (N : Nat) (lines : List (List Char)), lines.length ≤ N →
      ∀ i bs : Nat, blankRunsLoop i 0 bs lines = specBlankRuns i lines := by
  intro N
  induction N with
  | zero =>
    intro lines h i bs
    have hnil : lines = [] := List.length_eq_zero.mp (Nat.le_zero.mp h)
    subst hnil
    rw [specBlankRuns_nil, blankRunsLoop_nil]
  | succ N ihN =>
    intro lines hlen i bs
    match lines with
    | [] => rw [specBlankRuns_nil, blankRunsLoop_nil]
    | l :: rest =>
      by_cases hb : isBlankLine l
      · have hsplit : rest.takeWhile isBlankLine ++ rest.dropWhile isBlankLine = rest :=
          List.takeWhile_append_dropWhile isBlankLine rest
        have htb : ∀ x ∈ rest.takeWhile isBlankLine, isBlankLine x = true :=
          fun x hx => takeWhile_all isBlankLine rest x hx
        rw [blankRunsLoop_cons, if_pos hb, show ((0 : Nat) == 0) = true from rfl]
        simp only [if_true, Nat.zero_add]
        conv_lhs => rw [← hsplit]
        rw [blankRunsLoop_blanks (rest.takeWhile isBlankLine) htb
              (rest.dropWhile isBlankLine) (i + 1) 1 i (by omega)]
        rcases hdb : rest.dropWhile isBlankLine with _ | ⟨x, xs⟩
        · rw [specBlankRuns_blank_end i l rest hb hdb, blankRunsLoop_nil]
        · have hx : isBlankLine x = false := dropWhile_head_false isBlankLine rest x xs hdb
          rw [specBlankRuns_blank_mid i l rest x xs hb hdb]
          rw [blankRunsLoop_cons, hx]
          simp only [Bool.false_eq_true, if_false]
          have hxs : xs.length ≤ N := by
            have h1 : (rest.takeWhile isBlankLine).length + (x :: xs).length = rest.length := by
              conv_rhs => rw [← hsplit, hdb]
              rw [List.length_append]
            simp only [List.length_cons] at h1 hlen
            omega
          rw [ihN xs hxs (i + 1 + (rest.takeWhile isBlankLine).length + 1) i]
          rw [specBlankRuns_cons_nonblank _ x xs hx]
          rw [show i + (1 + (rest.takeWhile isBlankLine).length) =
                i + 1 + (rest.takeWhile isBlankLine).length from by omega]
      · have hbf : isBlankLine l = false := Bool.eq_false_iff.mpr hb
        rw [specBlankRuns_cons_nonblank i l rest hbf, blankRunsLoop_cons, hbf]
        simp only [Bool.false_eq_true, if_false, gt_iff_lt, Nat.not_lt_zero,
          show ¬(2 < 0) from by omega, List.nil_append]
        have hr : rest.length ≤ N := by
          simp only [List.length_cons] at hlen
          omega
        exact ihN rest hr (i + 1) bs

/-- C8 (counterexample): the input "x" followed by 4 blank lines
contains a run of 4 consecutive blank lines, yet `find_patterns`
reports no consecutive_blank_lines record for it, because the loop only
reports a run when a later non-blank line is reached. -/
theorem claim8_counterexample : findBlankRuns "x\n\n\n\n" = [] := by decide

/-- C8 (amended): the pattern scan reports exactly the runs of more
than 2 consecutive blank lines that are followed by a non-blank line,
giving each run's start line, end line and count (a run that reaches
the end of the input is not reported); in particular 4 blank lines in a
row followed by a non-blank line yield exactly one record with
count 4. -/
theorem claim8_blank_runs :
    (∀ code : String, findBlankRuns code = specBlankRuns 1 (splitLines code.data)) ∧
    findBlankRuns "x\n\n\n\n\ny" = [⟨2, 5, 4⟩] := by
  refine ⟨?_, by decide⟩
  intro code
  exact blankRunsLoop_eq_spec (splitLines code.data).length (splitLines code.data)
    (Nat.le_refl _) 1 0

/-! ## Risk monotonicity (C7) -/

/-- Splitting distributes over a newline join. -/
theorem splitLinesAux_append :
    ∀ (xs : List Char) (ys : List Char) (acc : List Char),
      splitLinesAux (xs ++ '\n' :: ys) acc = splitLinesAux xs acc ++ splitLinesAux ys [] := by
  intro xs
  induction xs with
  | nil => intro ys acc; simp [splitLinesAux]
  | cons c xs ih =>
    intro ys acc
    by_cases hc : c = '\n'
    · subst hc
      simp only [List.cons_append, splitLinesAux]
      exact congrArg (fun t => acc.reverse :: t) (ih ys [])
    · simp only [List.cons_append]
      rw [show splitLinesAux (c :: (xs ++ '\n' :: ys)) acc =
            splitLinesAux (xs ++ '\n' :: ys) (c :: acc) from by
          simp [splitLinesAux, hc],
          show splitLinesAux (c :: xs) acc = splitLinesAux xs (c :: acc) from by
          simp [splitLinesAux, hc]]
      exact ih ys (c :: acc)

/-- The line list of `T ++ "\n" ++ l` is the line list of `T` followed
by the line list of `l`. -/
theorem splitLines_join (T l : String) :
    splitLines (T ++ "\n" ++ l).data = splitLines T.data ++ splitLines l.data := by
  have h1 : (T ++ "\n" ++ l).data = T.data ++ '\n' :: l.data := by
    rw [String.data_append, String.data_append]
    simp
  unfold splitLines
  rw [h1, splitLinesAux_append]

/-- Enumeration distributes over append. -/
theorem enumF_append :
    ∀ (xs ys : List α) (n : Nat), enumF n (xs ++ ys) = enumF n xs ++ enumF (n + xs.length) ys := by
  intro xs
  induction xs with
  | nil => intro ys n; simp [enumF]
  | cons a xs ih =>
    intro ys n
    simp only [List.cons_append, enumF, List.length_cons]
    rw [show n + (xs.length + 1) = n + 1 + xs.length from by omega]
    exact congrArg (fun t => (n, a) :: t) (ih ys (n + 1))

theorem sevCount_append (s : String) (x y : List SecIssue) :
    sevCount s (x ++ y) = sevCount s x + sevCount s y := by
  simp [sevCount, List.countP_append]

/-- Per-category finding counts split over an appended line block (the
second block enumerated with the shifted start). -/
theorem sevCount_issuesForFrom_append (s cat : String) (rules : List (RE × String))
    (A B : List (List Char)) (n : Nat) :
    sevCount s (issuesForFrom n (A ++ B) cat rules) =
      sevCount s (issuesForFrom n A cat rules) +
        sevCount s (issuesForFrom (n + A.length) B cat rules) := by
  induction rules with
  | nil => simp [issuesForFrom, sevCount]
  | cons rule rs ih =>
    show sevCount s (((enumF n (A ++ B)).filterMap _) ++ issuesForFrom n (A ++ B) cat rs) = _
    rw [sevCount_append, enumF_append, List.filterMap_append, sevCount_append, ih]
    show _ = sevCount s (((enumF n A).filterMap _) ++ issuesForFrom n A cat rs) +
      sevCount s (((enumF (n + A.length) B).filterMap _) ++ issuesForFrom (n + A.length) B cat rs)
    rw [sevCount_append, sevCount_append]
    omega

/-- Per-category-list version: the counts split over an appended line
block. -/
theorem sevCount_catsIssues_append (s : String) (A B : List (List Char)) :
    ∀ (cats : List (String × List (RE × String))) (n : Nat),
      sevCount s (cats.flatMap fun c => issuesForFrom n (A ++ B) c.1 c.2) =
        sevCount s (cats.flatMap fun c => issuesForFrom n A c.1 c.2) +
          sevCount s (cats.flatMap fun c => issuesForFrom (n + A.length) B c.1 c.2) := by
  intro cats
  induction cats with
  | nil => intro n; simp [sevCount]
  | cons c cats ih =>
    intro n
    simp only [List.flatMap_cons, sevCount_append]
    rw [sevCount_issuesForFrom_append s c.1 c.2 A B n, ih n]
    omega

/-- The full scan's finding counts split over an appended line block. -/
theorem sevCount_allIssuesFrom_append (lang s : String) (A B : List (List Char)) (n : Nat) :
    sevCount s (allIssuesFrom n lang (A ++ B)) =
      sevCount s (allIssuesFrom n lang A) +
        sevCount s (allIssuesFrom (n + A.length) lang B) := by
  unfold allIssuesFrom
  exact sevCount_catsIssues_append s A B (patternsToCheck lang) n

/-- The risk score as a capped weighted sum of the per-tier finding
counts. -/
theorem risk_formula (code language : String) :
    (secAnalyze code language).risk_score =
      min (0 + sevCount "critical" (secAnalyze code language).issues * 25 +
        sevCount "high" (secAnalyze code language).issues * 15 +
        sevCount "medium" (secAnalyze code language).issues * 5 +
        sevCount "low" (secAnalyze code language).issues * 2) 100 := by
  have hrisk : (secAnalyze code language).risk_score =
      riskScoreOf (secAnalyze code language).severity_counts := rfl
  rw [hrisk, severity_counts_eq, riskScoreOf_eq]

/-- C7: appending a further line (joined with a newline) never
decreases the risk score, and the risk score of every document is at
most 100 (being a `Nat`, it is also at least 0). -/
theorem claim7_risk_monotone :
    ∀ (language T l : String),
      (secAnalyze T language).risk_score ≤ (secAnalyze (T ++ "\n" ++ l) language).risk_score ∧
      (secAnalyze T language).risk_score ≤ 100 := by
  intro language T l
  have hsev : ∀ s : String,
      sevCount s (secAnalyze (T ++ "\n" ++ l) language).issues =
        sevCount s (secAnalyze T language).issues +
          sevCount s (allIssuesFrom (1 + (splitLines T.data).length) (lowerStr language)
            (splitLines l.data)) := by
    intro s
    show sevCount s (allIssuesFrom 1 (lowerStr language) (splitLines (T ++ "\n" ++ l).data)) = _
    rw [splitLines_join, sevCount_allIssuesFrom_append]
    rfl
  constructor
  · rw [risk_formula T language, risk_formula (T ++ "\n" ++ l) language,
      hsev "critical", hsev "high", hsev "medium", hsev "low"]
    omega
  · rw [risk_formula T language]
    omega

/-! ## Case-insensitivity (C10) -/

/-- The ASCII upper-case letters. -/
def ucList : List Char :=
  ['A', 'B', 'C', 'D', 'E', 'F', 'G', 'H', 'I', 'J', 'K', 'L', 'M',
   'N', 'O', 'P', 'Q', 'R', 'S', 'T', 'U', 'V', 'W', 'X', 'Y', 'Z']

/-- The ASCII lower-case letters. -/
def lcList : List Char :=
  ['a', 'b', 'c', 'd', 'e', 'f', 'g', 'h', 'i', 'j', 'k', 'l', 'm',
   'n', 'o', 'p', 'q', 'r', 's', 't', 'u', 'v', 'w', 'x', 'y', 'z']

/-- `lowerChar` either fixes its argument or takes an upper-case letter
to a lower-case one. -/
theorem lowerChar_cases (c : Char) :
    lowerChar c = c ∨ (c ∈ ucList ∧ lowerChar c ∈ lcList) := by
  unfold lowerChar
  split <;> first | exact Or.inl rfl | exact Or.inr (by constructor <;> decide)

/-- For a target character that is not a letter, `lowerChar c` hits it
exactly when `c` is it. -/
theorem lowerChar_eq_iff (c d : Char) (hd1 : d ∉ ucList) (hd2 : d ∉ lcList) :
    lowerChar c = d ↔ c = d := by
  rcases lowerChar_cases c with h | ⟨hcu, hcl⟩
  · rw [h]
  · constructor
    · intro he
      exact absurd (he ▸ hcl) hd2
    · intro he
      exact absurd (he ▸ hcu) hd1

/-- Lower-casing preserves whitespace-ness. -/
theorem isPyWS_lowerChar (c : Char) : isPyWS (lowerChar c) = isPyWS c := by
  rcases lowerChar_cases c with h | ⟨hcu, hcl⟩
  · rw [h]
  · have h1 : ∀ u ∈ ucList, isPyWS u = false := by decide
    have h2 : ∀ u ∈ lcList, isPyWS u = false := by decide
    rw [h1 c hcu, h2 (lowerChar c) hcl]

/-- Mapping commutes with `dropWhile` (the predicate precomposed). -/
theorem dropWhile_map (f : α → β) (p : β → Bool) :
    ∀ l : List α, (l.map f).dropWhile p = (l.dropWhile (fun a => p (f a))).map f := by
  intro l
  induction l with
  | nil => simp
  | cons a l ih =>
    simp only [List.map_cons, List.dropWhile]
    by_cases ha : p (f a)
    · rw [ha]
      exact ih
    · rw [Bool.eq_false_iff.mpr ha]
      simp

/-- Stripping commutes with lower-casing. -/
theorem stripList_lower (l : List Char) :
    stripList (lowerList l) = lowerList (stripList l) := by
  unfold stripList lowerList
  have hws : (fun a => isPyWS (lowerChar a)) = isPyWS := funext isPyWS_lowerChar
  rw [dropWhile_map, hws, ← List.map_reverse, dropWhile_map, hws, ← List.map_reverse]

/-- For a pattern of non-letter characters, `startswith` is unaffected
by lower-casing the string. -/
theorem listStartsWith_lower :
    ∀ (pat : List Char), (∀ d ∈ pat, d ∉ ucList ∧ d ∉ lcList) →
      ∀ s : List Char, listStartsWith (lowerList s) pat = listStartsWith s pat := by
  intro pat
  induction pat with
  | nil => intro _ s; cases s <;> rfl
  | cons d pat ih =>
    intro hpat s
    obtain ⟨hd1, hd2⟩ := hpat d (by simp)
    have hpat2 : ∀ e ∈ pat, e ∉ ucList ∧ e ∉ lcList := fun e he => hpat e (by simp [he])
    cases s with
    | nil => rfl
    | cons c cs =>
      have hbeq : (lowerChar c == d) = (c == d) := by
        rw [Bool.eq_iff_iff]
        simp only [beq_iff_eq]
        exact lowerChar_eq_iff c d hd1 hd2
      have hl : listStartsWith (lowerList (c :: cs)) (d :: pat) =
          ((lowerChar c == d) && listStartsWith (lowerList cs) pat) := rfl
      have hr : listStartsWith (c :: cs) (d :: pat) =
          ((c == d) && listStartsWith cs pat) := rfl
      rw [hl, hr, hbeq, ih hpat2 cs]

/-- The comment skip is unaffected by lower-casing the line. -/
theorem isCommentLine_lower (l : List Char) :
    isCommentLine (lowerList l) = isCommentLine l := by
  unfold isCommentLine
  simp only [stripList_lower,
    listStartsWith_lower ['#'] (by decide),
    listStartsWith_lower ['/', '/'] (by decide),
    listStartsWith_lower ['/', '*'] (by decide),
    listStartsWith_lower ['*'] (by decide)]

/-- Splitting commutes with lower-casing. -/
theorem splitLinesAux_lower :
    ∀ (s acc : List Char),
      splitLinesAux (lowerList s) (lowerList acc) = (splitLinesAux s acc).map lowerList := by
  intro s
  induction s with
  | nil =>
    intro acc
    simp [splitLinesAux, lowerList, List.map_reverse]
  | cons c cs ih =>
    intro acc
    by_cases hc : c = '\n'
    · subst hc
      show splitLinesAux ('\n' :: lowerList cs) (lowerList acc) = _
      simp only [splitLinesAux, List.map_cons]
      refine congrArg₂ (fun a b => a :: b) ?_ (ih [])
      simp [lowerList, List.map_reverse]
    · have hlc : lowerChar c ≠ '\n' :=
        fun he => hc ((lowerChar_eq_iff c '\n' (by decide) (by decide)).mp he)
      show splitLinesAux (lowerChar c :: lowerList cs) (lowerList acc) = _
      rw [show splitLinesAux (lowerChar c :: lowerList cs) (lowerList acc) =
            splitLinesAux (lowerList cs) (lowerChar c :: lowerList acc) from by
          simp [splitLinesAux, hlc],
          show splitLinesAux (c :: cs) acc = splitLinesAux cs (c :: acc) from by
          simp [splitLinesAux, hc]]
      exact ih (c :: acc)

/-- The line list of the lower-cased document is the lower-cased line
list. -/
theorem splitLines_lower (s : List Char) :
    splitLines (lowerList s) = (splitLines s).map lowerList := by
  unfold splitLines
  rw [show ([] : List Char) = lowerList [] from rfl, splitLinesAux_lower]
  rfl

/-- A finding without its code-excerpt field (the excerpt is the only
field that echoes the original line text verbatim). -/
def dropCode (i : SecIssue) : Nat × String × String × String :=
  (i.line, i.category, i.message, i.severity)

theorem issuesForFrom_cons (n : Nat) (lines : List (List Char)) (cat : String)
    (rule : RE × String) (rs : List (RE × String)) :
    issuesForFrom n lines cat (rule :: rs) =
      (enumF n lines).filterMap (issueAt cat rule) ++ issuesForFrom n lines cat rs := by
  unfold issuesForFrom
  rw [List.flatMap_cons]

/-- For case-variant line lists, the per-rule scans produce the same
findings up to the code excerpt. -/
theorem filterMap_issueAt_congr :
    ∀ (A B : List (List Char)), A.map lowerList = B.map lowerList →
      ∀ (n : Nat) (cat : String) (rule : RE × String),
        ((enumF n A).filterMap (issueAt cat rule)).map dropCode =
          ((enumF n B).filterMap (issueAt cat rule)).map dropCode := by
  intro A
  induction A with
  | nil =>
    intro B hAB n cat rule
    cases B with
    | nil => rfl
    | cons b B2 => simp at hAB
  | cons a A ih =>
    intro B hAB n cat rule
    cases B with
    | nil => simp at hAB
    | cons b B2 =>
      simp only [List.map_cons, List.cons.injEq] at hAB
      obtain ⟨hab, hAB2⟩ := hAB
      have hcomm : isCommentLine a = isCommentLine b := by
        rw [← isCommentLine_lower a, ← isCommentLine_lower b, hab]
      simp only [enumF]
      by_cases hc : isCommentLine b
      · have ha : issueAt cat rule (n, a) = none := by
          unfold issueAt
          rw [show isCommentLine (n, a).2 = isCommentLine b from hcomm, if_pos hc]
        have hb : issueAt cat rule (n, b) = none := by
          unfold issueAt
          rw [if_pos hc]
        rw [List.filterMap_cons_none ha, List.filterMap_cons_none hb]
        exact ih B2 hAB2 (n + 1) cat rule
      · have hcf : isCommentLine b = false := Bool.eq_false_iff.mpr hc
        by_cases hr : research rule.1 (lowerList b)
        · have ha : issueAt cat rule (n, a) =
              some { line := n, category := cat, message := rule.2,
                     severity := severityOf cat, code := ⟨(stripList a).take 80⟩ } := by
            unfold issueAt
            rw [show isCommentLine (n, a).2 = isCommentLine b from hcomm, hcf]
            simp only [Bool.false_eq_true, if_false]
            rw [show research rule.1 (lowerList (n, a).2) =
                  research rule.1 (lowerList b) from by rw [show lowerList (n, a).2 = lowerList b from hab],
              if_pos hr]
          have hb : issueAt cat rule (n, b) =
              some { line := n, category := cat, message := rule.2,
                     severity := severityOf cat, code := ⟨(stripList b).take 80⟩ } := by
            unfold issueAt
            rw [hcf]
            simp only [Bool.false_eq_true, if_false]
            rw [if_pos hr]
          rw [List.filterMap_cons_some ha, List.filterMap_cons_some hb]
          simp only [List.map_cons]
          exact congrArg₂ (fun x y => x :: y) rfl (ih B2 hAB2 (n + 1) cat rule)
        · have ha : issueAt cat rule (n, a) = none := by
            unfold issueAt
            rw [show isCommentLine (n, a).2 = isCommentLine b from hcomm, hcf]
            simp only [Bool.false_eq_true, if_false]
            rw [show research rule.1 (lowerList (n, a).2) =
                  research rule.1 (lowerList b) from by rw [show lowerList (n, a).2 = lowerList b from hab],
              if_neg hr]
          have hb : issueAt cat rule (n, b) = none := by
            unfold issueAt
            rw [hcf]
            simp only [Bool.false_eq_true, if_false]
            rw [if_neg hr]
          rw [List.filterMap_cons_none ha, List.filterMap_cons_none hb]
          exact ih B2 hAB2 (n + 1) cat rule

/-- For case-variant line lists, a category's findings agree up to the
code excerpt. -/
theorem issuesForFrom_congr (A B : List (List Char)) (hAB : A.map lowerList = B.map lowerList)
    (n : Nat) (cat : String) :
    ∀ rules : List (RE × String),
      (issuesForFrom n A cat rules).map dropCode = (issuesForFrom n B cat rules).map dropCode := by
  intro rules
  induction rules with
  | nil => rfl
  | cons rule rs ih =>
    rw [issuesForFrom_cons, issuesForFrom_cons, List.map_append, List.map_append,
      filterMap_issueAt_congr A B hAB n cat rule, ih]

/-- For case-variant line lists, a category's finding count agrees. -/
theorem issuesForFrom_length_congr (A B : List (List Char))
    (hAB : A.map lowerList = B.map lowerList) (n : Nat) (cat : String)
    (rules : List (RE × String)) :
    (issuesForFrom n A cat rules).length = (issuesForFrom n B cat rules).length := by
  have h := congrArg List.length (issuesForFrom_congr A B hAB n cat rules)
  simpa using h

/-- For case-variant line lists, the whole scan's findings agree up to
the code excerpt. -/
theorem allIssues_congr (lang : String) (A B : List (List Char))
    (hAB : A.map lowerList = B.map lowerList) (n : Nat) :
    (allIssuesFrom n lang A).map dropCode = (allIssuesFrom n lang B).map dropCode := by
  unfold allIssuesFrom
  generalize patternsToCheck lang = cats
  induction cats with
  | nil => rfl
  | cons c cats ih =>
    simp only [List.flatMap_cons, List.map_append]
    rw [issuesForFrom_congr A B hAB n c.1 c.2, ih]

/-- Findings that agree up to the code excerpt have the same per-tier
counts. -/
theorem sevCount_congr (X Y : List SecIssue) (h : X.map dropCode = Y.map dropCode)
    (s : String) : sevCount s X = sevCount s Y := by
  unfold sevCount
  have hx : X.countP (fun i => i.severity == s) =
      (X.map dropCode).countP (fun q => q.2.2.2 == s) := by
    rw [List.countP_map]
    rfl
  have hy : Y.countP (fun i => i.severity == s) =
      (Y.map dropCode).countP (fun q => q.2.2.2 == s) := by
    rw [List.countP_map]
    rfl
  rw [hx, hy, h]

/-- C10: every rule of `analyze` is tested with case folding
(`re.IGNORECASE`), so two documents differing only in letter case
produce the same findings (same line, category, message and severity —
only the verbatim code excerpt echoes the original text), the same
severity counts, category counts, total and risk score; in particular
upper-case variants of the lower-case rule patterns still fire. -/
theorem claim10_case_insensitive :
    ∀ (language t1 t2 : String), lowerStr t1 = lowerStr t2 →
      (secAnalyze t1 language).issues.map dropCode =
          (secAnalyze t2 language).issues.map dropCode ∧
      (secAnalyze t1 language).severity_counts = (secAnalyze t2 language).severity_counts ∧
      (secAnalyze t1 language).categories = (secAnalyze t2 language).categories ∧
      (secAnalyze t1 language).total_issues = (secAnalyze t2 language).total_issues ∧
      (secAnalyze t1 language).risk_score = (secAnalyze t2 language).risk_score := by
  intro language t1 t2 h
  have hdata : lowerList t1.data = lowerList t2.data := congrArg String.data h
  have hlines : (splitLines t1.data).map lowerList = (splitLines t2.data).map lowerList := by
    rw [← splitLines_lower, ← splitLines_lower, hdata]
  have hissues : (secAnalyze t1 language).issues.map dropCode =
      (secAnalyze t2 language).issues.map dropCode :=
    allIssues_congr (lowerStr language) (splitLines t1.data) (splitLines t2.data) hlines 1
  have hsev : ∀ s, sevCount s (secAnalyze t1 language).issues =
      sevCount s (secAnalyze t2 language).issues :=
    fun s => sevCount_congr _ _ hissues s
  have htot : (secAnalyze t1 language).total_issues = (secAnalyze t2 language).total_issues := by
    show (secAnalyze t1 language).issues.length = (secAnalyze t2 language).issues.length
    have hl := congrArg List.length hissues
    simpa using hl
  refine ⟨hissues, ?_, ?_, htot, ?_⟩
  · rw [severity_counts_eq, severity_counts_eq,
      hsev "critical", hsev "high", hsev "medium", hsev "low"]
  · show (patternsToCheck (lowerStr language)).filterMap _ =
      (patternsToCheck (lowerStr language)).filterMap _
    have hfun : (fun (c : String × List (RE × String)) =>
        let k := (issuesForFrom 1 (splitLines t1.data) c.1 c.2).length
        if k ≠ 0 then some (c.1, k) else none) =
        (fun (c : String × List (RE × String)) =>
        let k := (issuesForFrom 1 (splitLines t2.data) c.1 c.2).length
        if k ≠ 0 then some (c.1, k) else none) := by
      funext c
      simp only [issuesForFrom_length_congr (splitLines t1.data) (splitLines t2.data)
        hlines 1 c.1 c.2]
    exact congrArg (fun f => List.filterMap f (patternsToCheck (lowerStr language))) hfun
  · rw [risk_formula, risk_formula,
      hsev "critical", hsev "high", hsev "medium", hsev "low"]

/-- Witness for the C10 theorem at a concrete input pair: the
upper-case document fires the same counts as its lower-case variant. -/
theorem claim10_case_insensitive_witness :
    lowerStr "PASSWORD = \"x\"" = lowerStr "password = \"x\"" ∧
    (secAnalyze "PASSWORD = \"x\"" "python").severity_counts =
      (secAnalyze "password = \"x\"" "python").severity_counts :=
  ⟨by decide,
    (claim10_case_insensitive "python" "PASSWORD = \"x\"" "password = \"x\"" (by decide)).2.1⟩
